import Mathlib

/-!
Verification of the scadman library core: the dimension-typed SCAD object
model, the rendering engine, the CSG operator algebra, and the value
formatting layer.

The Lean definitions below are a shallow embedding of the Rust sources:

* `src/internal.rs` — `indent_str`, `primitive_repr`, `modifier_repr`,
  `block_repr`;
* `src/common.rs` — `ScadObject`, `ScadObjectBody`,
  `ScadObjectDimensionType`, the `Add`/`Sub`/`Mul` operator
  implementations, `to_code`, `repr_scad_with_comment`, `INDENT`;
* `src/scad_2d.rs`, `src/scad_3d.rs`, `src/scad_mixed.rs` — the
  2D / 3D / Mixed object variants, their modifier-body enumerations,
  `get_children_type`, and the `try_new` / `new` constructors;
* `src/scad_display.rs` — `format_float`, the `ScadDisplay` instances
  for `Unit` (`f64`) and `String`.

Strings are modelled on `List Char` (`String.data`).  Rust's
`str::lines` is modelled faithfully, including its carriage-return
behaviour: a line ending is either `'\n'` or the sequence `"\r\n"`, and
the final line ending is optional (a trailing `'\r'` not followed by
`'\n'` stays in the last line).

Per the specification (§1, §6) the ~300 concrete shape builders are
external collaborators whose sole contract is to provide a rendered
`body : String`; primitive bodies and the parameters of parameterised
modifier sentences are therefore abstracted to the `String` each one
renders to. The parameterless CSG sentences (`union()`, `difference()`,
`intersection()`, `hull()`, `minkowski()`) render to fixed strings
(`src/scad_sentence/modifier/universal.rs`).
-/

namespace Scadman

/-- The number of spaces for indent (`INDENT` in `src/common.rs`). -/
def INDENT : Nat := 2

/-! ## Text utilities (`src/internal.rs`) -/

/-- Split a character list at every newline character. Produces one part
more than the number of newlines, so the result is never empty. -/
def splitNl : List Char → List (List Char)
  | [] => [[]]
  | c :: t =>
    if c = '\n' then [] :: splitNl t
    else
      match splitNl t with
      | [] => [[c]]
      | h :: r => (c :: h) :: r

/-- Drop a single trailing carriage return, as Rust's `str::lines` does
for every newline-terminated segment. -/
def stripCREnd (l : List Char) : List Char :=
  if l.getLast? = some '\r' then l.dropLast else l

/-- Rust's `str::lines` on a character list: split at `'\n'`, drop the
optional final line ending, and strip a `'\r'` that immediately preceded
a `'\n'`; a trailing `'\r'` not followed by `'\n'` is kept in the last
line. -/
def rustLines (s : List Char) : List (List Char) :=
  match (splitNl s).getLast? with
  | some [] => (splitNl s).dropLast.map stripCREnd
  | some l => (splitNl s).dropLast.map stripCREnd ++ [l]
  | none => []

/-- Join lines with `'\n'` separators (Rust `Vec::join("\n")`). -/
def joinNl : List (List Char) → List Char
  | [] => []
  | [l] => l
  | l :: r => l ++ '\n' :: joinNl r

/-- `indent_str` from `src/internal.rs`: map each line of `s` to the
line prefixed by `indent` spaces, push an empty line if `s` ends with a
newline, and join with newlines. -/
def indent_str (s : String) (indent : Nat) : String :=
  let lines := (rustLines s.data).map (fun line => List.replicate indent ' ' ++ line)
  let lines2 := if s.data.getLast? = some '\n' then lines ++ [[]] else lines
  ⟨joinNl lines2⟩

/-- `primitive_repr` from `src/internal.rs`: the rendered sentence body
followed by `";\n"`. -/
def primitive_repr (body : String) : String :=
  body ++ ";\n"

/-- `modifier_repr` from `src/internal.rs`, taking the already-rendered
modifier body and child code (the Rust function receives the displayable
values and renders them first). If the child's code starts with `'{'`
the modifier is placed directly before the block; otherwise the child is
indented by `INDENT` on a new line. -/
def modifier_repr (body_repr : String) (child_repr : String) : String :=
  if child_repr.data.head? = some '{' then
    body_repr ++ " " ++ child_repr
  else
    body_repr ++ "\n" ++ indent_str child_repr INDENT

/-- `block_repr` from `src/internal.rs`, taking the concatenation of the
children's rendered code (the Rust function maps `to_code` over the
objects and collects into one `String` first). -/
def block_repr (children_repr : String) : String :=
  "\x7b\n" ++ indent_str children_repr INDENT ++ "\x7d\n"

/-! ## Specification-side indentation

The spec describes indentation as: split the text into lines, prefix
every line with the given number of spaces, and preserve a trailing
empty line introduced by a terminal newline.  We formalise that reading
independently of the code, by cutting the text into chunks that each
retain their terminating newline and prefixing every chunk. -/

/-- Cut a character list into chunks ending after each `'\n'`; the last
chunk may lack a newline.  Concatenating the chunks gives back the
input. -/
def chunksAfterNl : List Char → List (List Char)
  | [] => []
  | c :: t =>
    if c = '\n' then ['\n'] :: chunksAfterNl t
    else
      match chunksAfterNl t with
      | [] => [[c]]
      | h :: r => (c :: h) :: r

/-- The specification's indentation: every line (with its terminating
newline kept in place) prefixed by `indent` spaces; a trailing empty
line after a terminal newline is preserved and not itself indented. -/
def specIndent (s : String) (indent : Nat) : String :=
  ⟨((chunksAfterNl s.data).map (fun line => List.replicate indent ' ' ++ line)).flatten⟩

/-- Reference normal form for indentation, used to relate `indent_str`
and `specIndent`: copy characters, inserting the space prefix after
every newline that is not the final character. -/
def indentGo (indent : Nat) : List Char → List Char
  | [] => []
  | c :: t =>
    if c = '\n' then
      match t with
      | [] => ['\n']
      | _ :: _ => '\n' :: (List.replicate indent ' ' ++ indentGo indent t)
    else c :: indentGo indent t

/-- Reference normal form for indentation at the whole-text level: the
empty text stays empty, any other text gets the space prefix and then
`indentGo`. -/
def indentRec (indent : Nat) (s : List Char) : List Char :=
  match s with
  | [] => []
  | _ :: _ => List.replicate indent ' ' ++ indentGo indent s

/-! ## Dimension tags and modifier-body enumerations -/

/-- `ScadObjectDimensionType` from `src/common.rs`. -/
inductive ScadObjectDimensionType where
  | object2D
  | object3D
  | objectMixed
deriving DecidableEq, Repr

/-- `ScadModifierBody2D` from `src/scad_2d.rs`.  Parameterised sentences
are abstracted to the `String` they render to (spec §6 `LeafNode`
contract); the parameterless CSG sentences carry no data and render to
fixed strings. -/
inductive ScadModifierBody2D where
  | color (sentence : String)
  | difference
  | hull
  | intersection
  | minkowski
  | mirror (sentence : String)
  | multMatrix (sentence : String)
  | offset (sentence : String)
  | projection (sentence : String)
  | resize (sentence : String)
  | rotate (sentence : String)
  | scale (sentence : String)
  | translate (sentence : String)
  | union
deriving DecidableEq, Repr

/-- `ScadModifierBody3D` from `src/scad_3d.rs`. -/
inductive ScadModifierBody3D where
  | color (sentence : String)
  | difference
  | hull
  | intersection
  | linearExtrude (sentence : String)
  | minkowski
  | mirror (sentence : String)
  | multMatrix (sentence : String)
  | resize (sentence : String)
  | rotate (sentence : String)
  | rotateExtrude (sentence : String)
  | scale (sentence : String)
  | translate (sentence : String)
  | union
deriving DecidableEq, Repr

/-- `ScadModifierBodyMixed` from `src/scad_mixed.rs` (only `color`). -/
inductive ScadModifierBodyMixed where
  | color (sentence : String)
deriving DecidableEq, Repr

/-- Rendered text of a 2D modifier sentence (`repr_scad`); the
parameterless operators render per
`src/scad_sentence/modifier/universal.rs`. -/
def ScadModifierBody2D.repr_scad : ScadModifierBody2D → String
  | .color s => s
  | .difference => "difference()"
  | .hull => "hull()"
  | .intersection => "intersection()"
  | .minkowski => "minkowski()"
  | .mirror s => s
  | .multMatrix s => s
  | .offset s => s
  | .projection s => s
  | .resize s => s
  | .rotate s => s
  | .scale s => s
  | .translate s => s
  | .union => "union()"

/-- Rendered text of a 3D modifier sentence. -/
def ScadModifierBody3D.repr_scad : ScadModifierBody3D → String
  | .color s => s
  | .difference => "difference()"
  | .hull => "hull()"
  | .intersection => "intersection()"
  | .linearExtrude s => s
  | .minkowski => "minkowski()"
  | .mirror s => s
  | .multMatrix s => s
  | .resize s => s
  | .rotate s => s
  | .rotateExtrude s => s
  | .scale s => s
  | .translate s => s
  | .union => "union()"

/-- Rendered text of a Mixed modifier sentence. -/
def ScadModifierBodyMixed.repr_scad : ScadModifierBodyMixed → String
  | .color s => s

/-- `ScadModifierBody2D::get_children_type` from `src/scad_2d.rs`:
every 2D modifier expects a 2D child except `projection`, which expects
a 3D child. -/
def ScadModifierBody2D.get_children_type : ScadModifierBody2D → ScadObjectDimensionType
  | .color _ | .difference | .hull | .intersection | .minkowski | .mirror _
  | .multMatrix _ | .offset _ | .resize _ | .rotate _ | .scale _
  | .translate _ | .union => .object2D
  | .projection _ => .object3D

/-- `ScadModifierBody3D::get_children_type` from `src/scad_3d.rs`:
every 3D modifier expects a 3D child except `linear_extrude` and
`rotate_extrude`, which expect a 2D child. -/
def ScadModifierBody3D.get_children_type : ScadModifierBody3D → ScadObjectDimensionType
  | .color _ | .difference | .hull | .intersection | .minkowski | .mirror _
  | .multMatrix _ | .resize _ | .rotate _ | .scale _ | .translate _
  | .union => .object3D
  | .linearExtrude _ | .rotateExtrude _ => .object2D

/-- `ScadModifierBodyMixed::get_children_type` from `src/scad_mixed.rs`. -/
def ScadModifierBodyMixed.get_children_type : ScadModifierBodyMixed → ScadObjectDimensionType
  | .color _ => .objectMixed

/-! ## The object tree

`ScadObject` holds a body and an optional comment (`src/common.rs`).
The 2D / 3D / Mixed bodies are the `Primitive` / `Modifier` / `Block`
enumerations of `src/scad_2d.rs`, `src/scad_3d.rs` and
`src/scad_mixed.rs`, with the generic parameter `T` instantiated at
`ScadObject` as the library does, and `Rc<T>` modelled by direct
ownership (the pointers are immutable and acyclic).  Primitive bodies
are the `String` the sentence renders to (spec §6).  `ScadObjects` is
the block's `Vec<ScadObject>`. -/

mutual

inductive ScadObject where
  | mk (body : ScadObjectBody) (comment : Option String)

inductive ScadObjectBody where
  | object2D (o : ScadObject2D)
  | object3D (o : ScadObject3D)
  | objectMixed (o : ScadObjectMixed)

inductive ScadObject2D where
  | primitive (body : String)
  | modifier (body : ScadModifierBody2D) (child : ScadObject)
  | block (objects : ScadObjects)

inductive ScadObject3D where
  | primitive (body : String)
  | modifier (body : ScadModifierBody3D) (child : ScadObject)
  | block (objects : ScadObjects)

inductive ScadObjectMixed where
  | modifier (body : ScadModifierBodyMixed) (child : ScadObject)
  | block (objects : ScadObjects)

inductive ScadObjects where
  | nil
  | cons (head : ScadObject) (tail : ScadObjects)

end

/-- Append two object sequences (`Vec::extend` / `push`). -/
def ScadObjects.app : ScadObjects → ScadObjects → ScadObjects
  | .nil, ys => ys
  | .cons x xs, ys => .cons x (xs.app ys)

/-- A single-element object sequence. -/
def ScadObjects.one (o : ScadObject) : ScadObjects := .cons o .nil

/-- `ScadObject::get_type` from `src/common.rs`: the dimension type is
derived from the body variant. -/
def ScadObject.get_type : ScadObject → ScadObjectDimensionType
  | .mk (.object2D _) _ => .object2D
  | .mk (.object3D _) _ => .object3D
  | .mk (.objectMixed _) _ => .objectMixed

/-- All objects of the sequence have dimension type `t`
(`objects.iter().all(|o| o.get_type() == ...)`). -/
def ScadObjects.allOfType (t : ScadObjectDimensionType) : ScadObjects → Bool
  | .nil => true
  | .cons o os => decide (o.get_type = t) && os.allOfType t

/-! ## The rendering engine

`to_code` from `src/common.rs`: a commented node renders
`"/* {comment} */\n"` (the `ScadCommentDisplay` default method) followed
by the body's `repr_scad`; the body dispatches to the variant's
renderer. -/

mutual

/-- `ScadObject::to_code` (`src/common.rs`). -/
def ScadObject.to_code : ScadObject → String
  | .mk body (some c) => "/* " ++ c ++ " */\n" ++ body.repr_scad
  | .mk body none => body.repr_scad

/-- `ScadObjectBody`'s delegated `repr_scad` (`src/common.rs`). -/
def ScadObjectBody.repr_scad : ScadObjectBody → String
  | .object2D o => o.repr_scad
  | .object3D o => o.repr_scad
  | .objectMixed o => o.repr_scad

/-- `ScadObject2D`'s `repr_scad` (`src/scad_2d.rs`). -/
def ScadObject2D.repr_scad : ScadObject2D → String
  | .primitive body => primitive_repr body
  | .modifier body child => modifier_repr body.repr_scad child.to_code
  | .block objects => block_repr objects.codes

/-- `ScadObject3D`'s `repr_scad` (`src/scad_3d.rs`). -/
def ScadObject3D.repr_scad : ScadObject3D → String
  | .primitive body => primitive_repr body
  | .modifier body child => modifier_repr body.repr_scad child.to_code
  | .block objects => block_repr objects.codes

/-- `ScadObjectMixed`'s `repr_scad` (`src/scad_mixed.rs`). -/
def ScadObjectMixed.repr_scad : ScadObjectMixed → String
  | .modifier body child => modifier_repr body.repr_scad child.to_code
  | .block objects => block_repr objects.codes

/-- The concatenation of the rendered code of a block's objects
(`block_repr`'s `objects.iter().map(to_code).collect::<String>()`). -/
def ScadObjects.codes : ScadObjects → String
  | .nil => ""
  | .cons o os => o.to_code ++ os.codes

end

/-! ## Constructors (`try_new` / `new`)

The fallible constructors return the constructed enum variant on
success.  `ScadModifier2D::try_new` and `ScadModifier3D::try_new`
(`src/scad_2d.rs`, `src/scad_3d.rs`) check the child's type against the
modifier body's expected child type; the block `try_new`s check that
every element has the block's dimension.  The Mixed constructors
(`src/scad_mixed.rs`) are plain `new` functions. -/

/-- `ScadModifier2D::try_new` (`src/scad_2d.rs`). -/
def ScadModifier2D_try_new (body : ScadModifierBody2D) (child : ScadObject) :
    Option ScadObject2D :=
  if child.get_type = body.get_children_type then some (.modifier body child) else none

/-- `ScadModifier3D::try_new` (`src/scad_3d.rs`). -/
def ScadModifier3D_try_new (body : ScadModifierBody3D) (child : ScadObject) :
    Option ScadObject3D :=
  if child.get_type = body.get_children_type then some (.modifier body child) else none

/-- `ScadBlock2D::try_new` (`src/scad_2d.rs`). -/
def ScadBlock2D_try_new (objects : ScadObjects) : Option ScadObject2D :=
  if objects.allOfType .object2D then some (.block objects) else none

/-- `ScadBlock3D::try_new` (`src/scad_3d.rs`). -/
def ScadBlock3D_try_new (objects : ScadObjects) : Option ScadObject3D :=
  if objects.allOfType .object3D then some (.block objects) else none

/-- `ScadModifierMixed::new` (`src/scad_mixed.rs`): no dimension check,
always constructs. -/
def ScadModifierMixed_new (body : ScadModifierBodyMixed) (child : ScadObject) :
    ScadObjectMixed :=
  .modifier body child

/-- `ScadBlockMixed::new` (`src/scad_mixed.rs`): no dimension check,
always constructs. -/
def ScadBlockMixed_new (objects : ScadObjects) : ScadObjectMixed :=
  .block objects

/-! ## The CSG operator algebra (`src/common.rs`)

The Rust operators panic on a dimension mismatch or a Mixed operand
(`assert!`) and on the internal `expect`s; a panic is modelled as
`none`.  Each operator extracts children from an operand that is a
same-kind modifier (one inline match per operand in the Rust source,
identical for `self` and `rhs`; factored into one function here), then
wraps the collected children in a block and the corresponding
modifier. -/

/-- The child-extraction step of `Add` (`src/common.rs`): if the operand
is a Union modifier (2D or 3D), splice its block child's objects, or
push its single non-block child; otherwise push the operand itself. -/
def extractUnionOperand (o : ScadObject) : ScadObjects :=
  match o with
  | .mk (.object2D (.modifier .union child)) _ =>
    match child with
    | .mk (.object2D (.block objs)) _ => objs
    | _ => .one child
  | .mk (.object3D (.modifier .union child)) _ =>
    match child with
    | .mk (.object3D (.block objs)) _ => objs
    | _ => .one child
  | _ => .one o

/-- The child-extraction step of `Sub` (`src/common.rs`), applied to the
left operand only: same as for `Add` but keyed on Difference. -/
def extractDifferenceOperand (o : ScadObject) : ScadObjects :=
  match o with
  | .mk (.object2D (.modifier .difference child)) _ =>
    match child with
    | .mk (.object2D (.block objs)) _ => objs
    | _ => .one child
  | .mk (.object3D (.modifier .difference child)) _ =>
    match child with
    | .mk (.object3D (.block objs)) _ => objs
    | _ => .one child
  | _ => .one o

/-- The child-extraction step of `Mul` (`src/common.rs`), keyed on
Intersection. -/
def extractIntersectionOperand (o : ScadObject) : ScadObjects :=
  match o with
  | .mk (.object2D (.modifier .intersection child)) _ =>
    match child with
    | .mk (.object2D (.block objs)) _ => objs
    | _ => .one child
  | .mk (.object3D (.modifier .intersection child)) _ =>
    match child with
    | .mk (.object3D (.block objs)) _ => objs
    | _ => .one child
  | _ => .one o

/-- Build the final node of an operator: wrap `children` in a block and
the given 2D modifier body, through the fallible constructors, exactly
as the `Object2D` arm of each operator does. -/
def wrapModifier2D (body : ScadModifierBody2D) (children : ScadObjects) :
    Option ScadObject := do
  let block ← ScadBlock2D_try_new children
  let blockObj : ScadObject := .mk (.object2D block) none
  let m ← ScadModifier2D_try_new body blockObj
  some (.mk (.object2D m) none)

/-- Build the final node of an operator, 3D arm. -/
def wrapModifier3D (body : ScadModifierBody3D) (children : ScadObjects) :
    Option ScadObject := do
  let block ← ScadBlock3D_try_new children
  let blockObj : ScadObject := .mk (.object3D block) none
  let m ← ScadModifier3D_try_new body blockObj
  some (.mk (.object3D m) none)

/-- `impl Add for ScadObject` (`src/common.rs`): assert equal non-Mixed
dimensions, extract children from both operands, and wrap them in a
Union. -/
def ScadObject.add (self rhs : ScadObject) : Option ScadObject :=
  let selfType := self.get_type
  let rhsType := rhs.get_type
  if selfType ≠ rhsType then none
  else if selfType = .objectMixed then none
  else
    let children := (extractUnionOperand self).app (extractUnionOperand rhs)
    match selfType with
    | .object2D => wrapModifier2D .union children
    | .object3D => wrapModifier3D .union children
    | .objectMixed => none

/-- `impl Sub for ScadObject` (`src/common.rs`): assert equal non-Mixed
dimensions, extract children from the left operand only, push the right
operand as-is, and wrap in a Difference. -/
def ScadObject.sub (self rhs : ScadObject) : Option ScadObject :=
  let selfType := self.get_type
  let rhsType := rhs.get_type
  if selfType ≠ rhsType then none
  else if selfType = .objectMixed then none
  else
    let children := (extractDifferenceOperand self).app (.one rhs)
    match selfType with
    | .object2D => wrapModifier2D .difference children
    | .object3D => wrapModifier3D .difference children
    | .objectMixed => none

/-- `impl Mul for ScadObject` (`src/common.rs`): assert equal non-Mixed
dimensions, extract children from both operands, and wrap in an
Intersection. -/
def ScadObject.mul (self rhs : ScadObject) : Option ScadObject :=
  let selfType := self.get_type
  let rhsType := rhs.get_type
  if selfType ≠ rhsType then none
  else if selfType = .objectMixed then none
  else
    let children := (extractIntersectionOperand self).app (extractIntersectionOperand rhs)
    match selfType with
    | .object2D => wrapModifier2D .intersection children
    | .object3D => wrapModifier3D .intersection children
    | .objectMixed => none

/-! ## Helper shapes used in the theorem statements -/

/-- Is the object a Union modifier node (2D or 3D)?  The operand
splicing of `Add` fires exactly on these. -/
def isUnionModifier (o : ScadObject) : Bool :=
  match o with
  | .mk (.object2D (.modifier .union _)) _ => true
  | .mk (.object3D (.modifier .union _)) _ => true
  | _ => false

/-- Is the object a Difference modifier node (2D or 3D)? -/
def isDifferenceModifier (o : ScadObject) : Bool :=
  match o with
  | .mk (.object2D (.modifier .difference _)) _ => true
  | .mk (.object3D (.modifier .difference _)) _ => true
  | _ => false

/-- Is the object an Intersection modifier node (2D or 3D)? -/
def isIntersectionModifier (o : ScadObject) : Bool :=
  match o with
  | .mk (.object2D (.modifier .intersection _)) _ => true
  | .mk (.object3D (.modifier .intersection _)) _ => true
  | _ => false

/-- The node a successful `Add` builds: a comment-free Union modifier
wrapping a comment-free block of `objs`, in the dimension `t` (the
`objectMixed` case is never used by the operators). -/
def mkUnionNode (t : ScadObjectDimensionType) (objs : ScadObjects) : ScadObject :=
  match t with
  | .object2D => .mk (.object2D (.modifier .union (.mk (.object2D (.block objs)) none))) none
  | .object3D => .mk (.object3D (.modifier .union (.mk (.object3D (.block objs)) none))) none
  | .objectMixed => .mk (.objectMixed (.block objs)) none

/-- The node a successful `Sub` builds. -/
def mkDifferenceNode (t : ScadObjectDimensionType) (objs : ScadObjects) : ScadObject :=
  match t with
  | .object2D =>
    .mk (.object2D (.modifier .difference (.mk (.object2D (.block objs)) none))) none
  | .object3D =>
    .mk (.object3D (.modifier .difference (.mk (.object3D (.block objs)) none))) none
  | .objectMixed => .mk (.objectMixed (.block objs)) none

/-- The node a successful `Mul` builds. -/
def mkIntersectionNode (t : ScadObjectDimensionType) (objs : ScadObjects) : ScadObject :=
  match t with
  | .object2D =>
    .mk (.object2D (.modifier .intersection (.mk (.object2D (.block objs)) none))) none
  | .object3D =>
    .mk (.object3D (.modifier .intersection (.mk (.object3D (.block objs)) none))) none
  | .objectMixed => .mk (.objectMixed (.block objs)) none

/-! ## Value formatting (`src/scad_display.rs`)

`Unit` is `f64`.  A finite `f64` is modelled as a sign bit plus an
exact rational magnitude (every finite double is such a rational; the
sign bit distinguishes `-0.0` from `0.0`).  Rust's `format!("{x:.n$}")`
renders the exact value rounded to `n` fractional digits with ties to
even, with the sign bit deciding the leading minus. -/

/-- Precision of `Unit` (`UNIT_PRECISION` in `src/scad_display.rs`). -/
def UNIT_PRECISION : Nat := 8

/-- A finite `f64`: a sign bit and an exact non-negative rational
magnitude `num / den` (every finite double has this form; `den` is
morally positive). -/
structure FiniteF64 where
  neg : Bool
  num : Nat
  den : Nat
deriving DecidableEq

/-- Round the non-negative rational `a / b` to the nearest natural
number, ties to even. -/
def roundHalfEven (a b : Nat) : Nat :=
  let q := a / b
  let r := a % b
  if 2 * r < b then q
  else if b < 2 * r then q + 1
  else if q % 2 = 0 then q else q + 1

/-- Decimal digit characters of a natural number, least significant
first, with explicit fuel (the fuel bounds the digit count, so fuel `n`
is always enough for `n ≥ 1`). -/
def natDigitsAux : Nat → Nat → List Char
  | 0, _ => []
  | _ + 1, 0 => []
  | fuel + 1, n + 1 => Char.ofNat (48 + (n + 1) % 10) :: natDigitsAux fuel ((n + 1) / 10)

/-- Decimal digit characters of a natural number, most significant
first (`"0"` for zero). -/
def natDigitsChars (n : Nat) : List Char :=
  if n = 0 then ['0'] else (natDigitsAux n n).reverse

/-- Rust's `format!("{x:.n$}")` for the modelled finite double: the
magnitude scaled by `10 ^ n`, rounded half-to-even, printed as integer
part, `'.'`, and exactly `n` zero-padded fractional digits (no `'.'`
when `n = 0`), with a leading `'-'` for a negative sign bit (Rust keeps
the sign of `-0.0`). -/
def fixedRepr (x : FiniteF64) (n : Nat) : List Char :=
  (if x.neg then ['-'] else [])
    ++ natDigitsChars (roundHalfEven (x.num * 10 ^ n) x.den / 10 ^ n)
    ++ (if n = 0 then []
        else '.' :: (List.replicate
            (n - (natDigitsChars (roundHalfEven (x.num * 10 ^ n) x.den % 10 ^ n)).length)
            '0'
          ++ natDigitsChars (roundHalfEven (x.num * 10 ^ n) x.den % 10 ^ n)))

/-- The trailing-zero loop of `format_float`
(`while s.ends_with('0') { s.pop() }`), written on the reversed
character list: drop leading `'0'`s. -/
def stripZerosRev : List Char → List Char
  | [] => []
  | c :: t => if c = '0' then stripZerosRev t else c :: t

/-- The string post-processing of `format_float`
(`src/scad_display.rs`): if the text contains `'.'`, pop trailing
zeros, then pop a trailing `'.'`; finally normalise `"-0"` to `"0"`. -/
def format_float_post (s : List Char) : List Char :=
  let s1 :=
    if s.contains '.' then
      let s2 := (stripZerosRev s.reverse).reverse
      if s2.getLast? = some '.' then s2.dropLast else s2
    else s
  if s1 = ['-', '0'] then ['0'] else s1

/-- `format_float` from `src/scad_display.rs`: fixed-precision
rendering followed by the post-processing. -/
def format_float (x : FiniteF64) (n : Nat) : String :=
  ⟨format_float_post (fixedRepr x n)⟩

/-- `impl ScadDisplay for Unit` (`src/scad_display.rs`). -/
def Unit_repr_scad (x : FiniteF64) : String :=
  format_float x UNIT_PRECISION

/-- The specification's normalisation of `"-0"` to `"0"`. -/
def normalizeNegZero (l : List Char) : List Char :=
  if l = ['-', '0'] then ['0'] else l

/-- The fractional part of a rendered number (everything after the
decimal point) with its trailing zeros stripped. -/
def stripFracZeros (s : List Char) : List Char :=
  (((s.dropWhile (fun c => c ≠ '.')).tail).reverse.dropWhile (fun c => c = '0')).reverse

/-- The specification's reading of the formatter: take the
fixed-precision rendering, split it at the decimal point, strip the
trailing zeros of the fractional part, drop the decimal point if
nothing remains after it, and normalise `"-0"` to `"0"`. -/
def specFormatFloat (x : FiniteF64) (n : Nat) : String :=
  ⟨normalizeNegZero
    (if (fixedRepr x n).contains '.' then
      (if stripFracZeros (fixedRepr x n) = []
        then (fixedRepr x n).takeWhile (fun c => c ≠ '.')
        else (fixedRepr x n).takeWhile (fun c => c ≠ '.')
          ++ '.' :: stripFracZeros (fixedRepr x n))
      else fixedRepr x n)⟩

/-! ## String escaping (`src/scad_display.rs`)

`impl ScadDisplay for String` renders
`format!("\"{}\"", self.replace('"', "\\\""))`. -/

/-- Rust's `str::replace('"', "\\\"")` on a character list: scan left to
right, replacing each `'"'` by `'\\'` followed by `'"'`. -/
def replaceQuote : List Char → List Char
  | [] => []
  | c :: t => if c = '"' then '\\' :: '"' :: replaceQuote t else c :: replaceQuote t

/-- `impl ScadDisplay for String` (`src/scad_display.rs`). -/
def String_repr_scad (s : String) : String :=
  ⟨'"' :: (replaceQuote s.data ++ ['"'])⟩

/-- The specification's reading of the escaping: every character maps to
itself, except `'"'` which maps to the two characters `'\\'`, `'"'`; no
other character (backslashes and newlines included) is touched. -/
def specEscape (s : List Char) : List Char :=
  s.flatMap (fun c => if c = '"' then ['\\', '"'] else [c])

/-! ## Sample concrete objects used by witnesses and counterexamples -/

/-- A 2D primitive sample (`square(size = 10)` of the test suite). -/
def sample2D : ScadObject := .mk (.object2D (.primitive ("square(size = 10)"))) none

/-- A second 2D primitive sample. -/
def sample2Db : ScadObject := .mk (.object2D (.primitive ("square(size = 20)"))) none

/-- A third 2D primitive sample. -/
def sample2Dc : ScadObject := .mk (.object2D (.primitive ("square(size = 30)"))) none

/-- A fourth 2D primitive sample. -/
def sample2Dd : ScadObject := .mk (.object2D (.primitive ("square(size = 40)"))) none

/-- A 3D primitive sample (`cube(size = 10)` of the test suite). -/
def sample3D : ScadObject := .mk (.object3D (.primitive ("cube(size = 10)"))) none

/-! ## C9, C10: comment rendering and string escaping -/

/-- C9: a node carrying a comment renders as the comment wrapped in
`/* ... */` plus a newline, followed by the rendering of the same node
without the comment; a comment-free node renders as just its body's
representation, with no comment line. -/
theorem to_code_comment_prefix (body : ScadObjectBody) (c : String) :
    (ScadObject.mk body (some c)).to_code
      = "/* " ++ c ++ " */\n" ++ (ScadObject.mk body none).to_code
    ∧ (ScadObject.mk body none).to_code = body.repr_scad := by
  constructor <;> rfl

/-- The code's left-to-right quote replacement agrees with the
specification's per-character expansion. -/
theorem replaceQuote_eq_specEscape (l : List Char) : replaceQuote l = specEscape l := by
  induction l with
  | nil => rfl
  | cons c t ih =>
    by_cases hc : c = '"' <;> simp [replaceQuote, specEscape, hc] <;>
      simpa [specEscape] using ih

/-- C10: a Rust string renders as the string wrapped in double quotes
where every embedded `'"'` becomes `'\'` followed by `'"'` and every
other character (backslashes and newlines included) passes through
unchanged. -/
theorem string_repr_escapes_quotes_only (s : String) :
    String_repr_scad s
      = ⟨'"' :: ((s.data.flatMap fun c => if c = '"' then ['\\', '"'] else [c]) ++ ['"'])⟩ := by
  unfold String_repr_scad
  rw [replaceQuote_eq_specEscape]
  rfl

/-! ## C4: the CSG operators abort on mismatched or Mixed dimensions -/

/-- C4: whenever the two operands' dimension types differ, or either
operand is Mixed, each of `+`, `-`, `*` panics (modelled as `none`) and
produces no result object. -/
theorem csg_ops_abort_on_dimension_mismatch (a b : ScadObject)
    (h : a.get_type ≠ b.get_type ∨ a.get_type = .objectMixed ∨ b.get_type = .objectMixed) :
    a.add b = none ∧ a.sub b = none ∧ a.mul b = none := by
  by_cases heq : a.get_type = b.get_type
  · have hmix : a.get_type = .objectMixed := by
      rcases h with h | h | h
      · exact absurd heq h
      · exact h
      · rw [heq]; exact h
    have hmixb : b.get_type = .objectMixed := heq ▸ hmix
    refine ⟨?_, ?_, ?_⟩ <;>
      simp [ScadObject.add, ScadObject.sub, ScadObject.mul, heq, hmix, hmixb]
  · refine ⟨?_, ?_, ?_⟩ <;>
      simp [ScadObject.add, ScadObject.sub, ScadObject.mul, heq]

/-- Witness for C4 at the spec's own example `sq(10) + cu(10)`: a 2D
and a 3D operand abort in all three operators. -/
theorem csg_ops_abort_witness :
    (sample2D.get_type ≠ sample3D.get_type
      ∨ sample2D.get_type = .objectMixed ∨ sample3D.get_type = .objectMixed)
    ∧ (sample2D.add sample3D = none ∧ sample2D.sub sample3D = none
        ∧ sample2D.mul sample3D = none) :=
  ⟨Or.inl (by decide),
    csg_ops_abort_on_dimension_mismatch sample2D sample3D (Or.inl (by decide))⟩

/-! ## C5: `try_new` checks the expected child dimension -/

/-- C5: `ScadModifier2D::try_new` and `ScadModifier3D::try_new` return
the modifier exactly when the child's dimension equals the body's
expected child dimension and return `none` otherwise; the expected
child dimension equals the modifier's own dimension for every kind
except the dimension-bridging ones — `projection` is the only 2D
modifier expecting a 3D child, and `linear_extrude` / `rotate_extrude`
are the only 3D modifiers expecting a 2D child. -/
theorem modifier_try_new_expected_child :
    (∀ (b : ScadModifierBody2D) (child : ScadObject),
      (ScadModifier2D_try_new b child = some (.modifier b child)
          ↔ child.get_type = b.get_children_type)
        ∧ (ScadModifier2D_try_new b child = none
          ↔ child.get_type ≠ b.get_children_type))
    ∧ (∀ (b : ScadModifierBody3D) (child : ScadObject),
      (ScadModifier3D_try_new b child = some (.modifier b child)
          ↔ child.get_type = b.get_children_type)
        ∧ (ScadModifier3D_try_new b child = none
          ↔ child.get_type ≠ b.get_children_type))
    ∧ (∀ b : ScadModifierBody2D,
        b.get_children_type = .object2D ∨ ∃ s, b = .projection s)
    ∧ (∀ s, (ScadModifierBody2D.projection s).get_children_type = .object3D)
    ∧ (∀ b : ScadModifierBody3D,
        b.get_children_type = .object3D
          ∨ (∃ s, b = .linearExtrude s) ∨ (∃ s, b = .rotateExtrude s))
    ∧ (∀ s, (ScadModifierBody3D.linearExtrude s).get_children_type = .object2D)
    ∧ (∀ s, (ScadModifierBody3D.rotateExtrude s).get_children_type = .object2D) := by
  refine ⟨?_, ?_, ?_, fun s => rfl, ?_, fun s => rfl, fun s => rfl⟩
  · intro b child
    constructor
    · constructor
      · intro h
        by_contra hne
        simp [ScadModifier2D_try_new, hne] at h
      · intro h
        simp [ScadModifier2D_try_new, h]
    · constructor
      · intro h hne
        simp [ScadModifier2D_try_new, hne] at h
      · intro h
        simp [ScadModifier2D_try_new, h]
  · intro b child
    constructor
    · constructor
      · intro h
        by_contra hne
        simp [ScadModifier3D_try_new, hne] at h
      · intro h
        simp [ScadModifier3D_try_new, h]
    · constructor
      · intro h hne
        simp [ScadModifier3D_try_new, hne] at h
      · intro h
        simp [ScadModifier3D_try_new, h]
  · intro b
    cases b with
    | projection s => exact Or.inr ⟨s, rfl⟩
    | _ => exact Or.inl rfl
  · intro b
    cases b with
    | linearExtrude s => exact Or.inr (Or.inl ⟨s, rfl⟩)
    | rotateExtrude s => exact Or.inr (Or.inr ⟨s, rfl⟩)
    | _ => exact Or.inl rfl

/-! ## C3: dimension invariants of the constructors -/

/-- C3 counterexample: `ScadBlockMixed::new` accepts a 2D element
(whose dimension tag is not Mixed) and still returns a tree — the
claimed "construction with a mismatched child never returns a tree"
fails for the Mixed constructors, which perform no check at all. -/
theorem mixed_construction_unchecked_cex :
    ScadBlockMixed_new (.one sample2D) = .block (.one sample2D)
    ∧ sample2D.get_type ≠ .objectMixed
    ∧ ScadModifierMixed_new (.color ("color(c = \"red\")")) sample2D
      = .modifier (.color ("color(c = \"red\")")) sample2D
    ∧ sample2D.get_type
      ≠ (ScadModifierBodyMixed.color ("color(c = \"red\")")).get_children_type :=
  ⟨rfl, by decide, rfl, by decide⟩

/-- C3 (amended): the 2D and 3D block and modifier constructors check
every child's dimension and fail exactly on a mismatch, never returning
a tree on failure; the Mixed constructors `ScadBlockMixed::new` and
`ScadModifierMixed::new` perform no dimension check and always return a
tree. -/
theorem construction_dimension_checks :
    (∀ objs, ScadBlock2D_try_new objs = some (.block objs)
        ↔ objs.allOfType .object2D = true)
    ∧ (∀ objs, ScadBlock2D_try_new objs = none ↔ objs.allOfType .object2D = false)
    ∧ (∀ objs, ScadBlock3D_try_new objs = some (.block objs)
        ↔ objs.allOfType .object3D = true)
    ∧ (∀ objs, ScadBlock3D_try_new objs = none ↔ objs.allOfType .object3D = false)
    ∧ (∀ (b : ScadModifierBody2D) (child : ScadObject),
        ScadModifier2D_try_new b child = some (.modifier b child)
          ↔ child.get_type = b.get_children_type)
    ∧ (∀ (b : ScadModifierBody3D) (child : ScadObject),
        ScadModifier3D_try_new b child = some (.modifier b child)
          ↔ child.get_type = b.get_children_type)
    ∧ (∀ (b : ScadModifierBodyMixed) (child : ScadObject),
        ScadModifierMixed_new b child = .modifier b child)
    ∧ (∀ objs, ScadBlockMixed_new objs = .block objs) := by
  refine ⟨?_, ?_, ?_, ?_, ?_, ?_, fun b child => rfl, fun objs => rfl⟩
  · intro objs
    constructor
    · intro h
      by_contra hne
      simp [ScadBlock2D_try_new, hne] at h
    · intro h
      simp [ScadBlock2D_try_new, h]
  · intro objs
    constructor
    · intro h
      cases hall : objs.allOfType .object2D
      · rfl
      · simp [ScadBlock2D_try_new, hall] at h
    · intro h
      simp [ScadBlock2D_try_new, h]
  · intro objs
    constructor
    · intro h
      by_contra hne
      simp [ScadBlock3D_try_new, hne] at h
    · intro h
      simp [ScadBlock3D_try_new, h]
  · intro objs
    constructor
    · intro h
      cases hall : objs.allOfType .object3D
      · rfl
      · simp [ScadBlock3D_try_new, hall] at h
    · intro h
      simp [ScadBlock3D_try_new, h]
  · intro b child
    constructor
    · intro h
      by_contra hne
      simp [ScadModifier2D_try_new, hne] at h
    · intro h
      simp [ScadModifier2D_try_new, h]
  · intro b child
    constructor
    · intro h
      by_contra hne
      simp [ScadModifier3D_try_new, hne] at h
    · intro h
      simp [ScadModifier3D_try_new, h]

/-! ## C1, C2: one-level flattening of the CSG operators -/

/-- An operand that is not a Union modifier is pushed as-is by `Add`'s
extraction. -/
theorem extractUnionOperand_eq_one (a : ScadObject) (h : isUnionModifier a = false) :
    extractUnionOperand a = .one a := by
  obtain ⟨body, cm⟩ := a
  cases body with
  | object2D o =>
    cases o with
    | primitive s => rfl
    | block objs => rfl
    | modifier m child =>
      cases m <;> first | rfl | simp [isUnionModifier] at h
  | object3D o =>
    cases o with
    | primitive s => rfl
    | block objs => rfl
    | modifier m child =>
      cases m <;> first | rfl | simp [isUnionModifier] at h
  | objectMixed o => cases o <;> rfl

/-- An operand that is not a Difference modifier is pushed as-is by
`Sub`'s extraction. -/
theorem extractDifferenceOperand_eq_one (a : ScadObject)
    (h : isDifferenceModifier a = false) :
    extractDifferenceOperand a = .one a := by
  obtain ⟨body, cm⟩ := a
  cases body with
  | object2D o =>
    cases o with
    | primitive s => rfl
    | block objs => rfl
    | modifier m child =>
      cases m <;> first | rfl | simp [isDifferenceModifier] at h
  | object3D o =>
    cases o with
    | primitive s => rfl
    | block objs => rfl
    | modifier m child =>
      cases m <;> first | rfl | simp [isDifferenceModifier] at h
  | objectMixed o => cases o <;> rfl

/-- An operand that is not an Intersection modifier is pushed as-is by
`Mul`'s extraction. -/
theorem extractIntersectionOperand_eq_one (a : ScadObject)
    (h : isIntersectionModifier a = false) :
    extractIntersectionOperand a = .one a := by
  obtain ⟨body, cm⟩ := a
  cases body with
  | object2D o =>
    cases o with
    | primitive s => rfl
    | block objs => rfl
    | modifier m child =>
      cases m <;> first | rfl | simp [isIntersectionModifier] at h
  | object3D o =>
    cases o with
    | primitive s => rfl
    | block objs => rfl
    | modifier m child =>
      cases m <;> first | rfl | simp [isIntersectionModifier] at h
  | objectMixed o => cases o <;> rfl

/-- A Union node freshly built by `Add` is spliced into its block's
objects by the next extraction. -/
theorem extractUnionOperand_mkUnionNode (t : ScadObjectDimensionType)
    (ht : t ≠ .objectMixed) (objs : ScadObjects) :
    extractUnionOperand (mkUnionNode t objs) = objs := by
  cases t with
  | object2D => rfl
  | object3D => rfl
  | objectMixed => exact absurd rfl ht

/-- A Difference node freshly built by `Sub` is spliced into its
block's objects by the next left-operand extraction. -/
theorem extractDifferenceOperand_mkDifferenceNode (t : ScadObjectDimensionType)
    (ht : t ≠ .objectMixed) (objs : ScadObjects) :
    extractDifferenceOperand (mkDifferenceNode t objs) = objs := by
  cases t with
  | object2D => rfl
  | object3D => rfl
  | objectMixed => exact absurd rfl ht

/-- An Intersection node freshly built by `Mul` is spliced into its
block's objects by the next extraction. -/
theorem extractIntersectionOperand_mkIntersectionNode (t : ScadObjectDimensionType)
    (ht : t ≠ .objectMixed) (objs : ScadObjects) :
    extractIntersectionOperand (mkIntersectionNode t objs) = objs := by
  cases t with
  | object2D => rfl
  | object3D => rfl
  | objectMixed => exact absurd rfl ht

/-- `get_type` of the freshly built Union node. -/
theorem get_type_mkUnionNode (t : ScadObjectDimensionType) (objs : ScadObjects) :
    (mkUnionNode t objs).get_type = t := by
  cases t <;> rfl

/-- `get_type` of the freshly built Difference node. -/
theorem get_type_mkDifferenceNode (t : ScadObjectDimensionType) (objs : ScadObjects) :
    (mkDifferenceNode t objs).get_type = t := by
  cases t <;> rfl

/-- `get_type` of the freshly built Intersection node. -/
theorem get_type_mkIntersectionNode (t : ScadObjectDimensionType) (objs : ScadObjects) :
    (mkIntersectionNode t objs).get_type = t := by
  cases t <;> rfl

/-- List-style induction for `ScadObjects` (the mutual recursor has
several motives; object sequences only ever recurse along the tail). -/
def ScadObjects.indOn {motive : ScadObjects → Prop} (s : ScadObjects)
    (hnil : motive .nil)
    (hcons : ∀ o os, motive os → motive (.cons o os)) : motive s :=
  match s with
  | .nil => hnil
  | .cons o os => hcons o os (os.indOn hnil hcons)

/-- `allOfType` distributes over the append of two sequences. -/
theorem allOfType_app (t : ScadObjectDimensionType) (xs ys : ScadObjects) :
    (xs.app ys).allOfType t = (xs.allOfType t && ys.allOfType t) := by
  induction xs using ScadObjects.indOn with
  | hnil => rfl
  | hcons x xs ih => simp [ScadObjects.app, ScadObjects.allOfType, ih, Bool.and_assoc]

/-- `allOfType` on a singleton. -/
theorem allOfType_one (t : ScadObjectDimensionType) (o : ScadObject) :
    (ScadObjects.one o).allOfType t = decide (o.get_type = t) := by
  simp [ScadObjects.one, ScadObjects.allOfType]

/-- `Add` under equal non-Mixed dimensions: when all extracted children
have the common dimension, the result is the Union node over the two
extractions, in operand order. -/
theorem add_eq_some (a b : ScadObject) (t : ScadObjectDimensionType)
    (ha : a.get_type = t) (hb : b.get_type = t) (ht : t ≠ .objectMixed)
    (hall : ((extractUnionOperand a).app (extractUnionOperand b)).allOfType t = true) :
    a.add b = some (mkUnionNode t ((extractUnionOperand a).app (extractUnionOperand b))) := by
  cases t with
  | objectMixed => exact absurd rfl ht
  | object2D =>
    simp only [ScadObject.add, ha, hb, ne_eq, not_true_eq_false, if_false,
      reduceCtorEq, if_neg, ite_false]
    simp [wrapModifier2D, ScadBlock2D_try_new, hall, ScadModifier2D_try_new,
      ScadObject.get_type, ScadModifierBody2D.get_children_type, mkUnionNode]
  | object3D =>
    simp only [ScadObject.add, ha, hb, ne_eq, not_true_eq_false, if_false,
      reduceCtorEq, if_neg, ite_false]
    simp [wrapModifier3D, ScadBlock3D_try_new, hall, ScadModifier3D_try_new,
      ScadObject.get_type, ScadModifierBody3D.get_children_type, mkUnionNode]

/-- `Sub` under equal non-Mixed dimensions: the children are the left
extraction followed by the right operand as-is. -/
theorem sub_eq_some (a b : ScadObject) (t : ScadObjectDimensionType)
    (ha : a.get_type = t) (hb : b.get_type = t) (ht : t ≠ .objectMixed)
    (hall : ((extractDifferenceOperand a).app (.one b)).allOfType t = true) :
    a.sub b = some (mkDifferenceNode t ((extractDifferenceOperand a).app (.one b))) := by
  cases t with
  | objectMixed => exact absurd rfl ht
  | object2D =>
    simp only [ScadObject.sub, ha, hb, ne_eq, not_true_eq_false, if_false,
      reduceCtorEq, if_neg, ite_false]
    simp [wrapModifier2D, ScadBlock2D_try_new, hall, ScadModifier2D_try_new,
      ScadObject.get_type, ScadModifierBody2D.get_children_type, mkDifferenceNode]
  | object3D =>
    simp only [ScadObject.sub, ha, hb, ne_eq, not_true_eq_false, if_false,
      reduceCtorEq, if_neg, ite_false]
    simp [wrapModifier3D, ScadBlock3D_try_new, hall, ScadModifier3D_try_new,
      ScadObject.get_type, ScadModifierBody3D.get_children_type, mkDifferenceNode]

/-- `Mul` under equal non-Mixed dimensions. -/
theorem mul_eq_some (a b : ScadObject) (t : ScadObjectDimensionType)
    (ha : a.get_type = t) (hb : b.get_type = t) (ht : t ≠ .objectMixed)
    (hall : ((extractIntersectionOperand a).app
        (extractIntersectionOperand b)).allOfType t = true) :
    a.mul b = some (mkIntersectionNode t
      ((extractIntersectionOperand a).app (extractIntersectionOperand b))) := by
  cases t with
  | objectMixed => exact absurd rfl ht
  | object2D =>
    simp only [ScadObject.mul, ha, hb, ne_eq, not_true_eq_false, if_false,
      reduceCtorEq, if_neg, ite_false]
    simp [wrapModifier2D, ScadBlock2D_try_new, hall, ScadModifier2D_try_new,
      ScadObject.get_type, ScadModifierBody2D.get_children_type, mkIntersectionNode]
  | object3D =>
    simp only [ScadObject.mul, ha, hb, ne_eq, not_true_eq_false, if_false,
      reduceCtorEq, if_neg, ite_false]
    simp [wrapModifier3D, ScadBlock3D_try_new, hall, ScadModifier3D_try_new,
      ScadObject.get_type, ScadModifierBody3D.get_children_type, mkIntersectionNode]

/-- A modifier whose child's code starts with `'{'` takes the inline
brace path. -/
theorem modifier_repr_of_brace (b x : String) (hx : x.data.head? = some '{') :
    modifier_repr b x = b ++ " " ++ x := by
  unfold modifier_repr
  rw [if_pos hx]

/-- Block code always starts with `'{'`. -/
theorem block_repr_head (x : String) : (block_repr x).data.head? = some '{' := rfl

/-- Rendering of the Union node built by `Add`: the `union()` sentence
followed inline by the block of the children's code. -/
theorem to_code_mkUnionNode (t : ScadObjectDimensionType) (ht : t ≠ .objectMixed)
    (objs : ScadObjects) :
    (mkUnionNode t objs).to_code = "union() " ++ block_repr objs.codes := by
  cases t with
  | objectMixed => exact absurd rfl ht
  | object2D =>
    show modifier_repr ("union()") (block_repr objs.codes) = _
    rw [modifier_repr_of_brace _ _ (block_repr_head _)]
    rfl
  | object3D =>
    show modifier_repr ("union()") (block_repr objs.codes) = _
    rw [modifier_repr_of_brace _ _ (block_repr_head _)]
    rfl

/-- Rendering of the Difference node built by `Sub`. -/
theorem to_code_mkDifferenceNode (t : ScadObjectDimensionType) (ht : t ≠ .objectMixed)
    (objs : ScadObjects) :
    (mkDifferenceNode t objs).to_code = "difference() " ++ block_repr objs.codes := by
  cases t with
  | objectMixed => exact absurd rfl ht
  | object2D =>
    show modifier_repr ("difference()") (block_repr objs.codes) = _
    rw [modifier_repr_of_brace _ _ (block_repr_head _)]
    rfl
  | object3D =>
    show modifier_repr ("difference()") (block_repr objs.codes) = _
    rw [modifier_repr_of_brace _ _ (block_repr_head _)]
    rfl

/-- Rendering of the Intersection node built by `Mul`. -/
theorem to_code_mkIntersectionNode (t : ScadObjectDimensionType) (ht : t ≠ .objectMixed)
    (objs : ScadObjects) :
    (mkIntersectionNode t objs).to_code
      = "intersection() " ++ block_repr objs.codes := by
  cases t with
  | objectMixed => exact absurd rfl ht
  | object2D =>
    show modifier_repr ("intersection()") (block_repr objs.codes) = _
    rw [modifier_repr_of_brace _ _ (block_repr_head _)]
    rfl
  | object3D =>
    show modifier_repr ("intersection()") (block_repr objs.codes) = _
    rw [modifier_repr_of_brace _ _ (block_repr_head _)]
    rfl

/-- The concatenated code of a three-element sequence. -/
theorem codes_three (a b c : ScadObject) :
    (ScadObjects.cons a (.cons b (.cons c .nil))).codes
      = a.to_code ++ b.to_code ++ c.to_code := by
  show a.to_code ++ (b.to_code ++ (c.to_code ++ "")) = _
  simp [String.append_assoc]

/-- The concatenated code of a two-element sequence. -/
theorem codes_two (a b : ScadObject) :
    (ScadObjects.cons a (.cons b .nil)).codes = a.to_code ++ b.to_code := by
  show a.to_code ++ (b.to_code ++ "") = _
  simp

/-- C1 counterexample: with `a` itself a Union modifier (wrapping a
block of two squares), `b`, `c` plain squares — all of the same 2D
dimension, as the claim requires — rendering `(a + b) + c` does not
produce a union whose block children are the renderings of `a`, `b`,
`c`: the operand `a` is spliced, so the block has four grandchildren
instead. -/
theorem add_flatten_claim_cex :
    (mkUnionNode .object2D (.cons sample2D (.cons sample2Db .nil))).get_type
        = sample2Dc.get_type
    ∧ sample2Dc.get_type = sample2Dd.get_type
    ∧ (mkUnionNode .object2D (.cons sample2D (.cons sample2Db .nil))).get_type
        ≠ .objectMixed
    ∧ (((mkUnionNode .object2D (.cons sample2D (.cons sample2Db .nil))).add
          sample2Dc).bind fun x => x.add sample2Dd).map ScadObject.to_code
      ≠ some ("union() " ++ block_repr
          ((mkUnionNode .object2D (.cons sample2D (.cons sample2Db .nil))).to_code
            ++ sample2Dc.to_code ++ sample2Dd.to_code)) :=
  ⟨rfl, rfl, by decide, by decide⟩

/-- C1 (amended): for `a`, `b`, `c` of one common non-Mixed dimension,
none of which is itself a Union modifier node (for `+`) or an
Intersection modifier node (for `*`), `(a + b) + c` builds the single
flat Union node with block children `a, b, c` in order and `c + (a + b)`
builds the same flat Union with children `c, a, b` — no nesting — and
these render as one `union()` applied to one block of the three
renderings; `*` behaves identically with Intersection. -/
theorem add_mul_flatten_one_level (a b c : ScadObject) (t : ScadObjectDimensionType)
    (ha : a.get_type = t) (hb : b.get_type = t) (hc : c.get_type = t)
    (ht : t ≠ .objectMixed)
    (hua : isUnionModifier a = false) (hub : isUnionModifier b = false)
    (huc : isUnionModifier c = false)
    (hia : isIntersectionModifier a = false) (hib : isIntersectionModifier b = false)
    (hic : isIntersectionModifier c = false) :
    ((a.add b).bind fun x => x.add c)
        = some (mkUnionNode t (.cons a (.cons b (.cons c .nil))))
    ∧ ((a.add b).bind fun x => c.add x)
        = some (mkUnionNode t (.cons c (.cons a (.cons b .nil))))
    ∧ (mkUnionNode t (.cons a (.cons b (.cons c .nil)))).to_code
        = "union() " ++ block_repr (a.to_code ++ b.to_code ++ c.to_code)
    ∧ (mkUnionNode t (.cons c (.cons a (.cons b .nil)))).to_code
        = "union() " ++ block_repr (c.to_code ++ a.to_code ++ b.to_code)
    ∧ ((a.mul b).bind fun x => x.mul c)
        = some (mkIntersectionNode t (.cons a (.cons b (.cons c .nil))))
    ∧ ((a.mul b).bind fun x => c.mul x)
        = some (mkIntersectionNode t (.cons c (.cons a (.cons b .nil))))
    ∧ (mkIntersectionNode t (.cons a (.cons b (.cons c .nil)))).to_code
        = "intersection() " ++ block_repr (a.to_code ++ b.to_code ++ c.to_code) := by
  have eua := extractUnionOperand_eq_one a hua
  have eub := extractUnionOperand_eq_one b hub
  have euc := extractUnionOperand_eq_one c huc
  have eia := extractIntersectionOperand_eq_one a hia
  have eib := extractIntersectionOperand_eq_one b hib
  have eic := extractIntersectionOperand_eq_one c hic
  have hall2 : (ScadObjects.cons a (.cons b .nil)).allOfType t = true := by
    simp [ScadObjects.allOfType, ha, hb]
  have hall3 : (ScadObjects.cons a (.cons b (.cons c .nil))).allOfType t = true := by
    simp [ScadObjects.allOfType, ha, hb, hc]
  have hall3r : (ScadObjects.cons c (.cons a (.cons b .nil))).allOfType t = true := by
    simp [ScadObjects.allOfType, ha, hb, hc]
  have e1 : a.add b = some (mkUnionNode t (.cons a (.cons b .nil))) := by
    have h := add_eq_some a b t ha hb ht
      (by rw [eua, eub]; exact hall2)
    rw [eua, eub] at h
    exact h
  have e2 : (mkUnionNode t (.cons a (.cons b .nil))).add c
      = some (mkUnionNode t (.cons a (.cons b (.cons c .nil)))) := by
    have h := add_eq_some (mkUnionNode t (.cons a (.cons b .nil))) c t
      (get_type_mkUnionNode t _) hc ht
      (by rw [extractUnionOperand_mkUnionNode t ht, euc]; exact hall3)
    rw [extractUnionOperand_mkUnionNode t ht, euc] at h
    exact h
  have e3 : c.add (mkUnionNode t (.cons a (.cons b .nil)))
      = some (mkUnionNode t (.cons c (.cons a (.cons b .nil)))) := by
    have h := add_eq_some c (mkUnionNode t (.cons a (.cons b .nil))) t
      hc (get_type_mkUnionNode t _) ht
      (by rw [extractUnionOperand_mkUnionNode t ht, euc]; exact hall3r)
    rw [extractUnionOperand_mkUnionNode t ht, euc] at h
    exact h
  have f1 : a.mul b = some (mkIntersectionNode t (.cons a (.cons b .nil))) := by
    have h := mul_eq_some a b t ha hb ht
      (by rw [eia, eib]; exact hall2)
    rw [eia, eib] at h
    exact h
  have f2 : (mkIntersectionNode t (.cons a (.cons b .nil))).mul c
      = some (mkIntersectionNode t (.cons a (.cons b (.cons c .nil)))) := by
    have h := mul_eq_some (mkIntersectionNode t (.cons a (.cons b .nil))) c t
      (get_type_mkIntersectionNode t _) hc ht
      (by rw [extractIntersectionOperand_mkIntersectionNode t ht, eic]; exact hall3)
    rw [extractIntersectionOperand_mkIntersectionNode t ht, eic] at h
    exact h
  have f3 : c.mul (mkIntersectionNode t (.cons a (.cons b .nil)))
      = some (mkIntersectionNode t (.cons c (.cons a (.cons b .nil)))) := by
    have h := mul_eq_some c (mkIntersectionNode t (.cons a (.cons b .nil))) t
      hc (get_type_mkIntersectionNode t _) ht
      (by rw [extractIntersectionOperand_mkIntersectionNode t ht, eic]; exact hall3r)
    rw [extractIntersectionOperand_mkIntersectionNode t ht, eic] at h
    exact h
  refine ⟨?_, ?_, ?_, ?_, ?_, ?_, ?_⟩
  · rw [e1]; exact e2
  · rw [e1]; exact e3
  · rw [to_code_mkUnionNode t ht, codes_three]
  · rw [to_code_mkUnionNode t ht, codes_three]
  · rw [f1]; exact f2
  · rw [f1]; exact f3
  · rw [to_code_mkIntersectionNode t ht, codes_three]

/-- Witness for the amended C1 at three concrete squares. -/
theorem add_mul_flatten_one_level_witness :
    ((sample2D.add sample2Db).bind fun x => x.add sample2Dc)
      = some (mkUnionNode .object2D
          (.cons sample2D (.cons sample2Db (.cons sample2Dc .nil)))) :=
  (add_mul_flatten_one_level sample2D sample2Db sample2Dc .object2D rfl rfl rfl
    (by decide) rfl rfl rfl rfl rfl rfl).1

/-- Any successful subtraction has the Difference shape with the right
operand pushed, as-is, as the final block child: the right operand is
never spliced, whatever its shape. -/
theorem sub_some_shape (l r res : ScadObject) (h : l.sub r = some res) :
    res = mkDifferenceNode l.get_type ((extractDifferenceOperand l).app (.one r)) := by
  unfold ScadObject.sub at h
  by_cases h1 : l.get_type = r.get_type
  · by_cases h2 : l.get_type = .objectMixed
    · simp [h1, h2] at h
      rw [← h1] at h
      simp [h2] at h
    · rw [← h1] at h
      cases hT : l.get_type with
      | objectMixed => exact absurd hT h2
      | object2D =>
        rw [hT] at h
        simp only [ne_eq, not_true_eq_false, if_false, ite_false, if_neg,
          not_false_eq_true] at h
        by_cases hall :
            ((extractDifferenceOperand l).app (.one r)).allOfType .object2D = true
        · simp [wrapModifier2D, ScadBlock2D_try_new, hall, ScadObject.get_type,
            ScadModifier2D_try_new, ScadModifierBody2D.get_children_type] at h
          rw [← h]
          rfl
        · simp [wrapModifier2D, ScadBlock2D_try_new, hall] at h
      | object3D =>
        rw [hT] at h
        simp only [ne_eq, not_true_eq_false, if_false, ite_false, if_neg,
          not_false_eq_true] at h
        by_cases hall :
            ((extractDifferenceOperand l).app (.one r)).allOfType .object3D = true
        · simp [wrapModifier3D, ScadBlock3D_try_new, hall, ScadObject.get_type,
            ScadModifier3D_try_new, ScadModifierBody3D.get_children_type] at h
          rw [← h]
          rfl
        · simp [wrapModifier3D, ScadBlock3D_try_new, hall] at h
  · simp [h1] at h

/-- C2 counterexample: with `a` itself a Difference modifier (wrapping a
block of two squares) and `b`, `c` plain squares — all of the same 2D
dimension, as the claim requires — rendering `(a - b) - c` is not one
`difference()` block with the three children `a`, `b`, `c`: the left
operand `a` is spliced one level, so the block has four grandchildren. -/
theorem sub_flatten_claim_cex :
    (mkDifferenceNode .object2D (.cons sample2D (.cons sample2Db .nil))).get_type
        = sample2Dc.get_type
    ∧ sample2Dc.get_type = sample2Dd.get_type
    ∧ (mkDifferenceNode .object2D (.cons sample2D (.cons sample2Db .nil))).get_type
        ≠ .objectMixed
    ∧ (((mkDifferenceNode .object2D (.cons sample2D (.cons sample2Db .nil))).sub
          sample2Dc).bind fun x => x.sub sample2Dd).map ScadObject.to_code
      ≠ some ("difference() " ++ block_repr
          ((mkDifferenceNode .object2D (.cons sample2D (.cons sample2Db .nil))).to_code
            ++ sample2Dc.to_code ++ sample2Dd.to_code)) :=
  ⟨rfl, rfl, by decide, by decide⟩

/-- C2 (amended): for `a`, `b`, `c` of one common non-Mixed dimension
with `a` and `b` not themselves Difference modifier nodes, `(a - b) - c`
builds one flat Difference with block children `a, b, c` (the left
operand, a fresh Difference, is spliced) while `a - (b - c)` keeps the
nested Difference `b - c` intact as the second of exactly two children;
and for arbitrary operands the right operand of `-` is never spliced —
every successful subtraction ends its child list with the right operand
pushed as-is. -/
theorem sub_flattens_left_only (a b c : ScadObject) (t : ScadObjectDimensionType)
    (ha : a.get_type = t) (hb : b.get_type = t) (hc : c.get_type = t)
    (ht : t ≠ .objectMixed)
    (hda : isDifferenceModifier a = false) (hdb : isDifferenceModifier b = false) :
    ((a.sub b).bind fun x => x.sub c)
        = some (mkDifferenceNode t (.cons a (.cons b (.cons c .nil))))
    ∧ ((b.sub c).bind fun x => a.sub x)
        = some (mkDifferenceNode t
            (.cons a (.cons (mkDifferenceNode t (.cons b (.cons c .nil))) .nil)))
    ∧ (mkDifferenceNode t (.cons a (.cons b (.cons c .nil)))).to_code
        = "difference() " ++ block_repr (a.to_code ++ b.to_code ++ c.to_code)
    ∧ (mkDifferenceNode t
          (.cons a (.cons (mkDifferenceNode t (.cons b (.cons c .nil))) .nil))).to_code
        = "difference() " ++ block_repr
            (a.to_code ++ (mkDifferenceNode t (.cons b (.cons c .nil))).to_code)
    ∧ (∀ l r res : ScadObject, l.sub r = some res →
        res = mkDifferenceNode l.get_type
          ((extractDifferenceOperand l).app (.one r))) := by
  have eda := extractDifferenceOperand_eq_one a hda
  have edb := extractDifferenceOperand_eq_one b hdb
  have e1 : a.sub b = some (mkDifferenceNode t (.cons a (.cons b .nil))) := by
    have h := sub_eq_some a b t ha hb ht
      (by rw [eda]; simp [ScadObjects.app, ScadObjects.one, ScadObjects.allOfType, ha, hb])
    rw [eda] at h
    exact h
  have e2 : (mkDifferenceNode t (.cons a (.cons b .nil))).sub c
      = some (mkDifferenceNode t (.cons a (.cons b (.cons c .nil)))) := by
    have h := sub_eq_some (mkDifferenceNode t (.cons a (.cons b .nil))) c t
      (get_type_mkDifferenceNode t _) hc ht
      (by rw [extractDifferenceOperand_mkDifferenceNode t ht]
          simp [ScadObjects.app, ScadObjects.one, ScadObjects.allOfType, ha, hb, hc])
    rw [extractDifferenceOperand_mkDifferenceNode t ht] at h
    exact h
  have e3 : b.sub c = some (mkDifferenceNode t (.cons b (.cons c .nil))) := by
    have h := sub_eq_some b c t hb hc ht
      (by rw [edb]; simp [ScadObjects.app, ScadObjects.one, ScadObjects.allOfType, hb, hc])
    rw [edb] at h
    exact h
  have e4 : a.sub (mkDifferenceNode t (.cons b (.cons c .nil)))
      = some (mkDifferenceNode t
          (.cons a (.cons (mkDifferenceNode t (.cons b (.cons c .nil))) .nil))) := by
    have h := sub_eq_some a (mkDifferenceNode t (.cons b (.cons c .nil))) t
      ha (get_type_mkDifferenceNode t _) ht
      (by rw [eda]
          simp [ScadObjects.app, ScadObjects.one, ScadObjects.allOfType, ha,
            get_type_mkDifferenceNode])
    rw [eda] at h
    exact h
  refine ⟨?_, ?_, ?_, ?_, sub_some_shape⟩
  · rw [e1]; exact e2
  · rw [e3]; exact e4
  · rw [to_code_mkDifferenceNode t ht, codes_three]
  · rw [to_code_mkDifferenceNode t ht, codes_two]

/-- Witness for the amended C2 at three concrete squares. -/
theorem sub_flattens_left_only_witness :
    ((sample2D.sub sample2Db).bind fun x => x.sub sample2Dc)
      = some (mkDifferenceNode .object2D
          (.cons sample2D (.cons sample2Db (.cons sample2Dc .nil)))) :=
  (sub_flattens_left_only sample2D sample2Db sample2Dc .object2D rfl rfl rfl
    (by decide) rfl rfl).1

/-! ## C6, C7: the indentation engine -/

/-- An element reported by `getLast?` is a member of the list. -/
theorem mem_of_getLast?_eq {α : Type} : ∀ {l : List α} {a : α},
    l.getLast? = some a → a ∈ l := by
  intro l
  induction l with
  | nil => intro a h; cases h
  | cons x xs ih =>
    intro a h
    cases xs with
    | nil =>
      simp [List.getLast?] at h
      simp [h]
    | cons y ys =>
      rw [List.getLast?_cons_cons] at h
      exact List.mem_cons_of_mem x (ih h)

/-- `getLast?` of a cons with nonempty tail. -/
theorem getLast?_cons_ne_nil {α : Type} {a : α} {l : List α} (h : l ≠ []) :
    (a :: l).getLast? = l.getLast? := by
  cases l with
  | nil => exact absurd rfl h
  | cons x xs => exact List.getLast?_cons_cons ..

/-- `splitNl` never returns the empty list of parts. -/
theorem splitNl_ne_nil (s : List Char) : splitNl s ≠ [] := by
  cases s with
  | nil => simp [splitNl]
  | cons c t =>
    by_cases hc : c = '\n'
    · simp [splitNl, hc]
    · cases hs : splitNl t with
      | nil => simp [splitNl, hc, hs]
      | cons h r => simp [splitNl, hc, hs]

/-- Every character of every part of `splitNl s` occurs in `s`. -/
theorem mem_of_mem_splitNl : ∀ {s l : List Char}, l ∈ splitNl s →
    ∀ {c : Char}, c ∈ l → c ∈ s := by
  intro s
  induction s with
  | nil =>
    intro l hl c hc
    simp [splitNl] at hl
    subst hl
    cases hc
  | cons d t ih =>
    intro l hl c hc
    by_cases hd : d = '\n'
    · rw [splitNl] at hl
      rw [if_pos hd] at hl
      rcases List.mem_cons.mp hl with hl | hl
      · subst hl; cases hc
      · exact List.mem_cons_of_mem d (ih hl hc)
    · cases hs : splitNl t with
      | nil => exact absurd hs (splitNl_ne_nil t)
      | cons h0 r =>
        rw [splitNl] at hl
        rw [if_neg hd, hs] at hl
        rcases List.mem_cons.mp hl with hl | hl
        · subst hl
          rcases List.mem_cons.mp hc with hc | hc
          · subst hc; exact List.mem_cons_self ..
          · exact List.mem_cons_of_mem d
              (ih (hs ▸ List.mem_cons_self h0 r) hc)
        · exact List.mem_cons_of_mem d
            (ih (hs ▸ List.mem_cons_of_mem h0 hl) hc)

/-- `stripCREnd` is the identity on carriage-return-free lines. -/
theorem stripCREnd_eq_of_not_mem {l : List Char} (h : '\r' ∉ l) :
    stripCREnd l = l := by
  unfold stripCREnd
  rw [if_neg]
  intro hl
  exact h (mem_of_getLast?_eq hl)

/-- `rustLines` on a leading newline: one empty line, then the lines of
the rest. -/
theorem rustLines_cons_nl (t : List Char) :
    rustLines ('\n' :: t) = [] :: rustLines t := by
  cases hs : splitNl t with
  | nil => exact absurd hs (splitNl_ne_nil t)
  | cons p ps =>
    have hsplit : splitNl ('\n' :: t) = [] :: p :: ps := by
      rw [splitNl, if_pos rfl, hs]
    rw [rustLines, rustLines, hsplit, hs]
    rw [List.getLast?_cons_cons]
    cases hgl : (p :: ps).getLast? with
    | none => simp [List.getLast?] at hgl
    | some lastPart =>
      cases lastPart with
      | nil => simp [stripCREnd]
      | cons x xs => simp [stripCREnd]

/-- `rustLines` on a carriage-return-free cons of a non-newline
character: the character is prepended to the first line. -/
theorem rustLines_cons (c : Char) (t : List Char) (hc : c ≠ '\n')
    (hcr : '\r' ∉ c :: t) :
    rustLines (c :: t) = match rustLines t with
      | [] => [[c]]
      | h :: r => (c :: h) :: r := by
  have hcrt : '\r' ∉ t := fun h => hcr (List.mem_cons_of_mem c h)
  have hcrc : c ≠ '\r' := fun h => hcr (h ▸ List.mem_cons_self c t)
  cases hs : splitNl t with
  | nil => exact absurd hs (splitNl_ne_nil t)
  | cons h0 r =>
    have hsplit : splitNl (c :: t) = (c :: h0) :: r := by
      rw [splitNl, if_neg hc, hs]
    have hcr0 : '\r' ∉ h0 :=
      fun hmem => hcrt (mem_of_mem_splitNl (hs ▸ List.mem_cons_self h0 r) hmem)
    have hstrip0 : stripCREnd h0 = h0 := stripCREnd_eq_of_not_mem hcr0
    have hstripc : stripCREnd (c :: h0) = c :: h0 := by
      apply stripCREnd_eq_of_not_mem
      intro hmem
      rcases List.mem_cons.mp hmem with hmem | hmem
      · exact hcrc hmem.symm
      · exact hcr0 hmem
    cases r with
    | nil =>
      rw [rustLines, rustLines, hsplit, hs]
      cases h0 with
      | nil => simp
      | cons x xs => simp
    | cons r0 r1 =>
      have hrne : (r0 :: r1 : List (List Char)) ≠ [] := by simp
      have hglc : ((c :: h0) :: r0 :: r1).getLast? = (r0 :: r1).getLast? :=
        List.getLast?_cons_cons ..
      have hgl0 : (h0 :: r0 :: r1).getLast? = (r0 :: r1).getLast? :=
        List.getLast?_cons_cons ..
      rw [rustLines, rustLines, hsplit, hs, hglc, hgl0]
      cases hgl : (r0 :: r1).getLast? with
      | none => simp [List.getLast?] at hgl
      | some lastPart =>
        have hdropc : ((c :: h0) :: r0 :: r1).dropLast
            = (c :: h0) :: (r0 :: r1).dropLast := by
          simp [List.dropLast]
        have hdrop0 : (h0 :: r0 :: r1).dropLast = h0 :: (r0 :: r1).dropLast := by
          simp [List.dropLast]
        cases lastPart with
        | nil => simp [hdropc, hdrop0, hstrip0, hstripc]
        | cons x xs => simp [hdropc, hdrop0, hstrip0, hstripc]

/-- `rustLines` of a nonempty text is nonempty. -/
theorem rustLines_ne_nil (s : List Char) (h : s ≠ []) : rustLines s ≠ [] := by
  cases s with
  | nil => exact absurd rfl h
  | cons c t =>
    by_cases hc : c = '\n'
    · subst hc
      rw [rustLines_cons_nl]
      simp
    · cases hs : splitNl t with
      | nil => exact absurd hs (splitNl_ne_nil t)
      | cons h0 r =>
        have hsplit : splitNl (c :: t) = (c :: h0) :: r := by
          rw [splitNl, if_neg hc, hs]
        cases r with
        | nil =>
          rw [rustLines, hsplit]
          simp
        | cons r0 r1 =>
          rw [rustLines, hsplit]
          rw [List.getLast?_cons_cons]
          cases hgl : (r0 :: r1).getLast? with
          | none =>
            simp [List.getLast?] at hgl
          | some lastPart =>
            have hdropc : ((c :: h0) :: r0 :: r1).dropLast
                = (c :: h0) :: (r0 :: r1).dropLast := by
              simp [List.dropLast]
            cases lastPart with
            | nil => simp [hdropc]
            | cons x xs => simp [hdropc]

/-- Unfolding `joinNl` on a cons. -/
theorem joinNl_cons (a : List Char) (Y : List (List Char)) :
    joinNl (a :: Y) = a ++ (if Y = [] then [] else '\n' :: joinNl Y) := by
  cases Y with
  | nil => simp [joinNl]
  | cons y ys => simp [joinNl]

/-- `indentGo` never maps a nonempty text to the empty text. -/
theorem indentGo_ne_nil (k : Nat) (s : List Char) (h : s ≠ []) : indentGo k s ≠ [] := by
  cases s with
  | nil => exact absurd rfl h
  | cons c t =>
    by_cases hc : c = '\n'
    · subst hc
      cases t <;> simp [indentGo]
    · simp [indentGo, hc]

/-- The code's `indent_str` agrees with the `indentRec` normal form on
carriage-return-free text. -/
theorem indent_data_eq_indentRec (k : Nat) :
    ∀ l : List Char, '\r' ∉ l → (indent_str ⟨l⟩ k).data = indentRec k l := by
  intro l
  induction l with
  | nil => intro h; rfl
  | cons c t ih =>
    intro hcr
    have hcrt : '\r' ∉ t := fun h => hcr (List.mem_cons_of_mem c h)
    by_cases hc : c = '\n'
    · subst hc
      cases t with
      | nil =>
        simp [indent_str, rustLines_cons_nl, rustLines, splitNl, joinNl,
          indentRec, indentGo, stripCREnd]
      | cons t0 t1 =>
        have htne : (t0 :: t1 : List Char) ≠ [] := by simp
        have hlines : rustLines ('\n' :: t0 :: t1) = [] :: rustLines (t0 :: t1) :=
          rustLines_cons_nl _
        have hXne : (rustLines (t0 :: t1)).map
            (fun line => List.replicate k ' ' ++ line) ≠ [] := by
          simp [rustLines_ne_nil _ htne]
        have hglc : ('\n' :: t0 :: t1 : List Char).getLast? = (t0 :: t1).getLast? :=
          getLast?_cons_ne_nil htne
        have ihx := ih hcrt
        have hrec : indentRec k (t0 :: t1) = List.replicate k ' ' ++ indentGo k (t0 :: t1) := by
          simp [indentRec]
        simp only [indent_str, hlines, List.map_cons, hglc] at ihx ⊢
        by_cases hend : (t0 :: t1 : List Char).getLast? = some '\n'
        · rw [if_pos hend] at ihx ⊢
          rw [List.cons_append, joinNl_cons, if_neg (by simp)]
          rw [ihx]
          simp [indentRec, indentGo, List.nil_append]
        · rw [if_neg hend] at ihx ⊢
          rw [joinNl_cons, if_neg hXne]
          rw [ihx]
          simp [indentRec, indentGo, List.nil_append]
    · cases hrl : rustLines t with
      | nil =>
        have ht : t = [] := by
          by_contra hne
          exact rustLines_ne_nil t hne hrl
        subst ht
        have hlines : rustLines [c] = [[c]] := by
          rw [rustLines_cons c [] hc hcr, rustLines]
          rfl
        simp [indent_str, hlines, joinNl, indentRec, indentGo, hc,
          List.getLast?, Option.some_inj]
      | cons h0 X =>
        have ht : t ≠ [] := by
          intro h
          rw [h, show rustLines ([] : List Char) = [] from rfl] at hrl
          cases hrl
        have hlines : rustLines (c :: t) = (c :: h0) :: X := by
          rw [rustLines_cons c t hc hcr, hrl]
        have hglc : (c :: t : List Char).getLast? = t.getLast? :=
          getLast?_cons_ne_nil ht
        have ihx := ih hcrt
        have hrec : indentRec k t = List.replicate k ' ' ++ indentGo k t := by
          cases t with
          | nil => exact absurd rfl ht
          | cons a as => simp [indentRec]
        have hgoalrec : indentRec k (c :: t)
            = List.replicate k ' ' ++ (c :: indentGo k t) := by
          simp [indentRec, indentGo, hc]
        simp only [indent_str, hlines, hrl, List.map_cons, hglc] at ihx ⊢
        by_cases hend : t.getLast? = some '\n'
        · rw [if_pos hend] at ihx ⊢
          rw [List.cons_append, joinNl_cons, if_neg (by simp)] at ihx ⊢
          rw [hrec, List.append_assoc] at ihx
          have hcancel := List.append_cancel_left ihx
          rw [List.append_assoc, List.cons_append, hcancel, hgoalrec]
        · rw [if_neg hend] at ihx ⊢
          rw [joinNl_cons] at ihx ⊢
          rw [hrec, List.append_assoc] at ihx
          have hcancel := List.append_cancel_left ihx
          rw [List.append_assoc, List.cons_append, hcancel, hgoalrec]

/-- `chunksAfterNl` is empty only on the empty text. -/
theorem chunksAfterNl_eq_nil_iff (l : List Char) : chunksAfterNl l = [] ↔ l = [] := by
  constructor
  · intro h
    cases l with
    | nil => rfl
    | cons c t =>
      by_cases hc : c = '\n'
      · rw [chunksAfterNl, if_pos hc] at h
        cases h
      · rw [chunksAfterNl, if_neg hc] at h
        cases hch : chunksAfterNl t with
        | nil => rw [hch] at h; cases h
        | cons h0 r => rw [hch] at h; cases h
  · intro h
    subst h
    rfl

/-- The specification's indentation agrees with the `indentRec` normal
form on every text. -/
theorem spec_data_eq_indentRec (k : Nat) :
    ∀ l : List Char, (specIndent ⟨l⟩ k).data = indentRec k l := by
  intro l
  induction l with
  | nil => rfl
  | cons c t ih =>
    by_cases hc : c = '\n'
    · subst hc
      have hch : chunksAfterNl ('\n' :: t) = ['\n'] :: chunksAfterNl t := by
        rw [chunksAfterNl, if_pos rfl]
      cases t with
      | nil =>
        simp [specIndent, hch, chunksAfterNl, indentRec, indentGo]
      | cons t0 t1 =>
        have hrec : indentRec k (t0 :: t1)
            = List.replicate k ' ' ++ indentGo k (t0 :: t1) := by
          simp [indentRec]
        simp only [specIndent, hch, List.map_cons, List.flatten_cons] at ih ⊢
        rw [ih]
        simp [indentRec, indentGo, List.append_assoc]
    · cases hch : chunksAfterNl t with
      | nil =>
        have ht : t = [] := (chunksAfterNl_eq_nil_iff t).mp hch
        subst ht
        have hc1 : chunksAfterNl [c] = [[c]] := by
          rw [chunksAfterNl, if_neg hc]
          rfl
        simp [specIndent, hc1, indentRec, indentGo, hc]
      | cons h0 r =>
        have ht : t ≠ [] := by
          intro h
          rw [h] at hch
          cases hch
        have hcc : chunksAfterNl (c :: t) = (c :: h0) :: r := by
          rw [chunksAfterNl, if_neg hc, hch]
        have hrec : indentRec k t = List.replicate k ' ' ++ indentGo k t := by
          cases t with
          | nil => exact absurd rfl ht
          | cons a as => simp [indentRec]
        have hgoalrec : indentRec k (c :: t)
            = List.replicate k ' ' ++ (c :: indentGo k t) := by
          simp [indentRec, indentGo, hc]
        simp only [specIndent, hcc, hch, List.map_cons, List.flatten_cons] at ih ⊢
        rw [hrec, List.append_assoc] at ih
        have hcancel := List.append_cancel_left ih
        rw [List.append_assoc, List.cons_append, hcancel, hgoalrec]

/-- On carriage-return-free text, the code's `indent_str` coincides with
the specification's line-by-line indentation. -/
theorem indent_str_eq_specIndent (s : String) (k : Nat) (h : '\r' ∉ s.data) :
    indent_str s k = specIndent s k := by
  obtain ⟨l⟩ := s
  apply String.ext
  rw [indent_data_eq_indentRec k l h, spec_data_eq_indentRec k l]

/-- Unfolding `indentGo` on a newline followed by more text. -/
theorem indentGo_cons_nl (k : Nat) (t : List Char) (h : t ≠ []) :
    indentGo k ('\n' :: t) = '\n' :: (List.replicate k ' ' ++ indentGo k t) := by
  cases t with
  | nil => exact absurd rfl h
  | cons t0 t1 => rfl

/-- Unfolding `indentGo` on a non-newline character. -/
theorem indentGo_cons_ne (k : Nat) (c : Char) (t : List Char) (h : c ≠ '\n') :
    indentGo k (c :: t) = c :: indentGo k t := by
  cases t with
  | nil => simp [indentGo, h]
  | cons t0 t1 => simp [indentGo, h]

/-- `indentGo` passes a prefix of spaces through unchanged. -/
theorem indentGo_spaces (k j : Nat) (x : List Char) :
    indentGo k (List.replicate j ' ' ++ x) = List.replicate j ' ' ++ indentGo k x := by
  induction j with
  | zero => simp
  | succ n ih =>
    rw [List.replicate_succ, List.cons_append, List.cons_append]
    rw [indentGo_cons_ne k ' ' _ (by decide)]
    rw [ih]

/-- Composing `indentGo` adds the space counts. -/
theorem indentGo_comp (k j : Nat) :
    ∀ s : List Char, indentGo k (indentGo j s) = indentGo (k + j) s := by
  intro s
  induction s with
  | nil => rfl
  | cons c t ih =>
    by_cases hc : c = '\n'
    · subst hc
      cases t with
      | nil => rfl
      | cons t0 t1 =>
        have hne : indentGo j (t0 :: t1) ≠ [] := indentGo_ne_nil j _ (by simp)
        have hne2 : List.replicate j ' ' ++ indentGo j (t0 :: t1) ≠ [] := by
          simp [hne]
        rw [indentGo_cons_nl j _ (by simp), indentGo_cons_nl (k + j) _ (by simp)]
        rw [indentGo_cons_nl k _ hne2]
        rw [indentGo_spaces, ih]
        rw [← List.append_assoc, ← List.replicate_add]

    · rw [indentGo_cons_ne j c t hc, indentGo_cons_ne k c _ hc,
        indentGo_cons_ne (k + j) c t hc, ih]

/-- Composing `indentRec` adds the space counts. -/
theorem indentRec_comp (k j : Nat) (s : List Char) :
    indentRec k (indentRec j s) = indentRec (k + j) s := by
  cases s with
  | nil => rfl
  | cons c t =>
    have hne : indentGo j (c :: t) ≠ [] := indentGo_ne_nil j _ (by simp)
    have hrec : indentRec j (c :: t)
        = List.replicate j ' ' ++ indentGo j (c :: t) := by
      simp [indentRec]
    rw [hrec]
    cases hmm : List.replicate j ' ' ++ indentGo j (c :: t) with
    | nil => simp at hmm; exact absurd hmm.2 hne
    | cons y ys =>
      rw [indentRec, ← hmm]
      rw [indentGo_spaces, indentGo_comp]
      rw [← List.append_assoc, ← List.replicate_add]
      rw [indentRec]

/-- Characters of `indentGo` output come from the input or are spaces. -/
theorem mem_indentGo (k : Nat) :
    ∀ (s : List Char) (c : Char), c ∈ indentGo k s → c ∈ s ∨ c = ' ' := by
  intro s
  induction s with
  | nil => intro c hc; cases hc
  | cons d t ih =>
    intro c hc
    by_cases hd : d = '\n'
    · subst hd
      cases t with
      | nil =>
        rw [show indentGo k ['\n'] = ['\n'] from rfl] at hc
        simp at hc
        simp [hc]
      | cons t0 t1 =>
        rw [indentGo_cons_nl k _ (by simp)] at hc
        rcases List.mem_cons.mp hc with hc | hc
        · subst hc; exact Or.inl (List.mem_cons_self ..)
        · rcases List.mem_append.mp hc with hc | hc
          · exact Or.inr (List.eq_of_mem_replicate hc)
          · rcases ih c hc with hmem | hsp
            · exact Or.inl (List.mem_cons_of_mem _ hmem)
            · exact Or.inr hsp
    · rw [indentGo_cons_ne k d t hd] at hc
      rcases List.mem_cons.mp hc with hc | hc
      · subst hc; exact Or.inl (List.mem_cons_self ..)
      · rcases ih c hc with hmem | hsp
        · exact Or.inl (List.mem_cons_of_mem _ hmem)
        · exact Or.inr hsp

/-- `indentRec` introduces no carriage return. -/
theorem not_mem_indentRec (k : Nat) (s : List Char) (h : '\r' ∉ s) :
    '\r' ∉ indentRec k s := by
  cases s with
  | nil => intro hc; cases hc
  | cons c t =>
    intro hc
    rw [indentRec] at hc
    rcases List.mem_append.mp hc with hc | hc
    · exact absurd (List.eq_of_mem_replicate hc) (by decide)
    · rcases mem_indentGo k _ _ hc with hmem | hsp
      · exact h hmem
      · exact absurd hsp (by decide)

/-- `indentGo` preserves the last character. -/
theorem getLast?_indentGo (k : Nat) :
    ∀ s : List Char, s ≠ [] → (indentGo k s).getLast? = s.getLast? := by
  intro s
  induction s with
  | nil => intro h; exact absurd rfl h
  | cons c t ih =>
    intro _
    by_cases hc : c = '\n'
    · subst hc
      cases t with
      | nil => rfl
      | cons t0 t1 =>
        have hne : indentGo k (t0 :: t1) ≠ [] := indentGo_ne_nil k _ (by simp)
        rw [indentGo_cons_nl k _ (by simp)]
        rw [getLast?_cons_ne_nil (by simp [hne])]
        rw [List.getLast?_append_of_ne_nil _ hne]
        rw [ih (by simp)]
        exact (getLast?_cons_ne_nil (by simp)).symm
    · rw [indentGo_cons_ne k c t hc]
      cases t with
      | nil => rfl
      | cons t0 t1 =>
        have hne : indentGo k (t0 :: t1) ≠ [] := indentGo_ne_nil k _ (by simp)
        rw [getLast?_cons_ne_nil hne, getLast?_cons_ne_nil (by simp)]
        exact ih (by simp)

/-- `indentRec` preserves the last character of a nonempty text. -/
theorem getLast?_indentRec (k : Nat) (s : List Char) :
    (indentRec k s).getLast? = s.getLast? := by
  cases s with
  | nil => rfl
  | cons c t =>
    rw [indentRec]
    have hne : indentGo k (c :: t) ≠ [] := indentGo_ne_nil k _ (by simp)
    rw [List.getLast?_append_of_ne_nil _ hne]
    exact getLast?_indentGo k _ (by simp)

/-- C7 counterexample: the indentation engine is not byte-for-byte
stable on text containing a carriage return immediately before a
newline — wrapping twice with 2 spaces differs from indenting once by
4, and a single application differs from the specification's pure
line-by-line indentation (Rust's `str::lines` strips the `'\r'`). -/
theorem indent_claim_cex :
    indent_str (indent_str ("ab\r\r\n") 2) 2 ≠ indent_str ("ab\r\r\n") (2 + 2)
    ∧ indent_str ("ab\r\r\n") 2 ≠ specIndent ("ab\r\r\n") 2 := by
  constructor <;> decide

/-- C7 (amended): on carriage-return-free text, `indent_str` indents
line-by-line exactly as the specification describes (each line prefixed
by the given spaces, the trailing empty line of a terminal newline
preserved and unindented), composes additively — so a node at nesting
depth `k` accumulates exactly `k` times the per-level step, `2 * k`
spaces for the fixed step `INDENT = 2` — and preserves the final
character, hence terminal-newline stability under repeated wrapping. -/
theorem indent_invariant (s : String) (hcr : '\r' ∉ s.data) :
    (∀ k, indent_str s k = specIndent s k)
    ∧ (∀ j k, indent_str (indent_str s j) k = indent_str s (j + k))
    ∧ (∀ k, (indent_str s k).data.getLast? = s.data.getLast?)
    ∧ INDENT = 2 := by
  refine ⟨fun k => indent_str_eq_specIndent s k hcr, ?_, ?_, rfl⟩
  · intro j k
    obtain ⟨l⟩ := s
    apply String.ext
    have h1 := indent_data_eq_indentRec j l hcr
    have hcr2 : '\r' ∉ (indent_str ⟨l⟩ j).data := by
      rw [h1]
      exact not_mem_indentRec j l hcr
    have h2 := indent_data_eq_indentRec k (indent_str ⟨l⟩ j).data hcr2
    calc (indent_str (indent_str ⟨l⟩ j) k).data
        = indentRec k ((indent_str ⟨l⟩ j).data) := h2
      _ = indentRec k (indentRec j l) := by rw [h1]
      _ = indentRec (k + j) l := indentRec_comp ..
      _ = (indent_str ⟨l⟩ (j + k)).data := by
          rw [indent_data_eq_indentRec (j + k) l hcr, Nat.add_comm]
  · intro k
    obtain ⟨l⟩ := s
    rw [indent_data_eq_indentRec k l hcr, getLast?_indentRec]

/-- Witness for the amended C7 at the modifier-over-primitive text of
the source's own unit test. -/
theorem indent_invariant_witness :
    ('\r' ∉ ("mod()\n  prim();\n" : String).data)
    ∧ indent_str ("mod()\n  prim();\n") 2 = specIndent ("mod()\n  prim();\n") 2 :=
  ⟨by decide, (indent_invariant ("mod()\n  prim();\n") (by decide)).1 2⟩

/-- C6 counterexample: a modifier wrapping a primitive whose body holds
a `"\r\n"` sequence (reachable through a `Text` sentence) renders on the
non-brace path, but its output is not the modifier body, a newline, and
the child's text with every line indented by two spaces: the `'\r'` is
lost by Rust's line splitting. -/
theorem modifier_repr_claim_cex :
    ((ScadObject.mk (.object2D (.primitive ("text(\"a\r\nb\")"))) none).to_code.data.head?
        ≠ some '{')
    ∧ ScadObject2D.repr_scad
        (.modifier (.color ("color(\"red\")"))
          (.mk (.object2D (.primitive ("text(\"a\r\nb\")"))) none))
      ≠ (ScadModifierBody2D.color ("color(\"red\")")).repr_scad ++ "\n"
        ++ specIndent
            (ScadObject.mk (.object2D (.primitive ("text(\"a\r\nb\")"))) none).to_code
            INDENT := by
  constructor <;> decide

/-- C6 (amended): rendering a modifier node renders its child first;
if the child's code begins with `'{'` the output is the modifier body, a
single space, and the child's code; otherwise — provided the child's
rendered text is carriage-return-free — the output is the modifier
body, a newline, and the child's code with every line indented by
`INDENT = 2` spaces, in every dimension variant. -/
theorem modifier_repr_spec :
    (∀ (b : ScadModifierBody2D) (child : ScadObject), '\r' ∉ child.to_code.data →
      ScadObject2D.repr_scad (.modifier b child)
        = if child.to_code.data.head? = some '{'
          then b.repr_scad ++ " " ++ child.to_code
          else b.repr_scad ++ "\n" ++ specIndent child.to_code INDENT)
    ∧ (∀ (b : ScadModifierBody3D) (child : ScadObject), '\r' ∉ child.to_code.data →
      ScadObject3D.repr_scad (.modifier b child)
        = if child.to_code.data.head? = some '{'
          then b.repr_scad ++ " " ++ child.to_code
          else b.repr_scad ++ "\n" ++ specIndent child.to_code INDENT)
    ∧ (∀ (b : ScadModifierBodyMixed) (child : ScadObject), '\r' ∉ child.to_code.data →
      ScadObjectMixed.repr_scad (.modifier b child)
        = if child.to_code.data.head? = some '{'
          then b.repr_scad ++ " " ++ child.to_code
          else b.repr_scad ++ "\n" ++ specIndent child.to_code INDENT) := by
  refine ⟨?_, ?_, ?_⟩ <;>
    · intro b child hcr
      show modifier_repr b.repr_scad child.to_code = _
      unfold modifier_repr
      by_cases hh : child.to_code.data.head? = some '{'
      · rw [if_pos hh, if_pos hh]
      · rw [if_neg hh, if_neg hh, indent_str_eq_specIndent _ _ hcr]

/-- Witness for the amended C6: a translate modifier over a square
primitive takes the non-brace path with the spec's indentation. -/
theorem modifier_repr_spec_witness :
    ('\r' ∉ sample2D.to_code.data)
    ∧ ScadObject2D.repr_scad
        (.modifier (.translate ("translate([8, -4])")) sample2D)
      = if sample2D.to_code.data.head? = some '{'
        then (ScadModifierBody2D.translate ("translate([8, -4])")).repr_scad
          ++ " " ++ sample2D.to_code
        else (ScadModifierBody2D.translate ("translate([8, -4])")).repr_scad
          ++ "\n" ++ specIndent sample2D.to_code INDENT :=
  ⟨by decide, modifier_repr_spec.1 (.translate ("translate([8, -4])")) sample2D (by decide)⟩

/-! ## C8: the number formatter -/

/-- The trailing-zero pop loop is a `dropWhile` on the reversed text. -/
theorem stripZerosRev_eq_dropWhile (l : List Char) :
    stripZerosRev l = l.dropWhile (fun c => c = '0') := by
  induction l with
  | nil => rfl
  | cons c t ih =>
    by_cases hc : c = '0'
    · rw [stripZerosRev, if_pos hc, List.dropWhile_cons_of_pos (by simp [hc])]
      exact ih
    · rw [stripZerosRev, if_neg hc, List.dropWhile_cons_of_neg (by simp [hc])]

/-- `dropWhile` across an append whose left part wholly satisfies the
predicate. -/
theorem dropWhile_append_of_all {p : Char → Bool} {a : List Char}
    (h : ∀ c ∈ a, p c = true) (b : List Char) :
    (a ++ b).dropWhile p = b.dropWhile p := by
  induction a with
  | nil => rfl
  | cons c t ih =>
    rw [List.cons_append, List.dropWhile_cons_of_pos (h c (List.mem_cons_self ..))]
    exact ih fun d hd => h d (List.mem_cons_of_mem c hd)

/-- `dropWhile` across an append whose left part starts with a failing
element keeps everything. -/
theorem dropWhile_cons_append_of_neg {p : Char → Bool} {c : Char}
    (h : p c = false) (t b : List Char) :
    ((c :: t) ++ b).dropWhile p = (c :: t) ++ b := by
  rw [List.cons_append, List.dropWhile_cons_of_neg (by simp [h])]

/-- `takeWhile` of "not a dot" over a dot-free prefix. -/
theorem takeWhile_ne_dot (A F : List Char) (hA : '.' ∉ A) :
    (A ++ '.' :: F).takeWhile (fun c => c ≠ '.') = A := by
  induction A with
  | nil =>
    rw [List.nil_append, List.takeWhile_cons_of_neg (by simp)]
  | cons a t ih =>
    have ha : a ≠ '.' := fun h => hA (h ▸ List.mem_cons_self ..)
    rw [List.cons_append, List.takeWhile_cons_of_pos (by simp [ha])]
    rw [ih fun h => hA (List.mem_cons_of_mem a h)]

/-- `dropWhile` of "not a dot" over a dot-free prefix. -/
theorem dropWhile_ne_dot (A F : List Char) (hA : '.' ∉ A) :
    (A ++ '.' :: F).dropWhile (fun c => c ≠ '.') = '.' :: F := by
  induction A with
  | nil =>
    rw [List.nil_append, List.dropWhile_cons_of_neg (by simp)]
  | cons a t ih =>
    have ha : a ≠ '.' := fun h => hA (h ▸ List.mem_cons_self ..)
    rw [List.cons_append, List.dropWhile_cons_of_pos (by simp [ha])]
    exact ih fun h => hA (List.mem_cons_of_mem a h)

/-- A list with a dot contains a dot. -/
theorem contains_dot (A F : List Char) : (A ++ '.' :: F).contains '.' = true := by
  simp [List.contains]

/-- A dot-free list does not contain a dot. -/
theorem not_contains_dot (s : List Char) (h : '.' ∉ s) : s.contains '.' = false := by
  simp [List.contains]
  exact h

/-- The decimal-point branch of `format_float`'s post-processing equals
the specification's split-strip-rejoin on any text of the shape
`integer ++ "." ++ fraction` with dot-free parts. -/
theorem format_float_post_split (A F : List Char) (hF : '.' ∉ F) :
    format_float_post (A ++ '.' :: F)
      = (let F2 := (F.reverse.dropWhile (fun c => c = '0')).reverse
         let s1 := if F2 = [] then A else A ++ '.' :: F2
         if s1 = ['-', '0'] then ['0'] else s1) := by
  unfold format_float_post
  rw [contains_dot]
  simp only [if_true, stripZerosRev_eq_dropWhile]
  rw [List.reverse_append, List.reverse_cons]
  rw [show (F.reverse ++ ['.']) ++ A.reverse = F.reverse ++ '.' :: A.reverse from by simp]
  rw [List.dropWhile_append]
  by_cases hall : F.reverse.dropWhile (fun c => c = '0') = []
  · rw [hall]
    simp only [List.isEmpty_nil, if_true]
    rw [List.dropWhile_cons_of_neg (by decide)]
    rw [List.reverse_cons, List.reverse_reverse]
    have hlast : (A ++ ['.'] : List Char).getLast? = some '.' := by simp
    rw [if_pos hlast, List.dropLast_concat]
    simp
  · rw [if_neg (show ¬((F.reverse.dropWhile (fun c => c = '0')).isEmpty = true) from by
      simp [List.isEmpty_iff, hall])]
    have hne2 : (F.reverse.dropWhile (fun c => c = '0')).reverse ≠ [] := by
      simpa using hall
    rw [List.reverse_append, List.reverse_cons, List.reverse_reverse]
    rw [show (A ++ ['.']) ++ (F.reverse.dropWhile (fun c => c = '0')).reverse
        = A ++ '.' :: (F.reverse.dropWhile (fun c => c = '0')).reverse from by simp]
    have hlast : (A ++ '.' :: (F.reverse.dropWhile (fun c => c = '0')).reverse).getLast?
        ≠ some '.' := by
      rw [List.getLast?_append_of_ne_nil _ (by simp)]
      rw [getLast?_cons_ne_nil hne2]
      intro hdot
      have hmem : '.' ∈ (F.reverse.dropWhile (fun c => c = '0')).reverse :=
        mem_of_getLast?_eq hdot
      rw [List.mem_reverse] at hmem
      have hmem2 : '.' ∈ F.reverse := (List.dropWhile_sublist ..).mem hmem
      rw [List.mem_reverse] at hmem2
      exact hF hmem2
    rw [if_neg hlast]
    simp [hne2]

/-- Every character produced by `natDigitsAux` is a decimal digit. -/
theorem mem_natDigitsAux_digit : ∀ (fuel m : Nat) (c : Char),
    c ∈ natDigitsAux fuel m → ∃ d, d < 10 ∧ c = Char.ofNat (48 + d) := by
  intro fuel
  induction fuel with
  | zero => intro m c hc; cases hc
  | succ f ih =>
    intro m c hc
    cases m with
    | zero => cases hc
    | succ k =>
      rw [natDigitsAux] at hc
      rcases List.mem_cons.mp hc with hc | hc
      · exact ⟨(k + 1) % 10, Nat.mod_lt _ (by norm_num), hc⟩
      · exact ih _ c hc

/-- The decimal point is not a digit character. -/
theorem dot_not_mem_natDigitsChars (m : Nat) : '.' ∉ natDigitsChars m := by
  unfold natDigitsChars
  by_cases hm : m = 0
  · rw [if_pos hm]
    decide
  · rw [if_neg hm]
    intro hc
    rw [List.mem_reverse] at hc
    obtain ⟨d, hd, hcd⟩ := mem_natDigitsAux_digit m m '.' hc
    interval_cases d <;> exact absurd hcd (by decide)

/-- With a positive precision, the fixed rendering splits as a dot-free
integer part, the decimal point, and a dot-free fraction part. -/
theorem fixedRepr_shape (x : FiniteF64) (n : Nat) (hn : n ≠ 0) :
    ∃ A F, fixedRepr x n = A ++ '.' :: F ∧ '.' ∉ A ∧ '.' ∉ F := by
  refine ⟨(if x.neg then ['-'] else [])
      ++ natDigitsChars (roundHalfEven (x.num * 10 ^ n) x.den / 10 ^ n),
    List.replicate
        (n - (natDigitsChars (roundHalfEven (x.num * 10 ^ n) x.den % 10 ^ n)).length) '0'
      ++ natDigitsChars (roundHalfEven (x.num * 10 ^ n) x.den % 10 ^ n), ?_, ?_, ?_⟩
  · simp only [fixedRepr]
    rw [if_neg hn]
  · intro hc
    rcases List.mem_append.mp hc with hc | hc
    · by_cases hneg : x.neg
      · rw [if_pos hneg] at hc
        simp at hc
      · rw [if_neg hneg] at hc
        cases hc
    · exact dot_not_mem_natDigitsChars _ hc
  · intro hc
    rcases List.mem_append.mp hc with hc | hc
    · exact absurd (List.eq_of_mem_replicate hc) (by decide)
    · exact dot_not_mem_natDigitsChars _ hc

/-- With precision zero the fixed rendering is dot-free. -/
theorem fixedRepr_nodot (x : FiniteF64) : '.' ∉ fixedRepr x 0 := by
  intro hc
  simp only [fixedRepr] at hc
  simp only [if_true, List.append_nil] at hc
  rcases List.mem_append.mp hc with hc | hc
  · by_cases hneg : x.neg
    · rw [if_pos hneg] at hc
      simp at hc
    · rw [if_neg hneg] at hc
      cases hc
  · exact dot_not_mem_natDigitsChars _ hc

/-- The specification pipeline on the split rendering. -/
theorem specFormatFloat_split (x : FiniteF64) (n : Nat) (A F : List Char)
    (hs : fixedRepr x n = A ++ '.' :: F) (hA : '.' ∉ A) :
    specFormatFloat x n
      = ⟨(let F2 := (F.reverse.dropWhile (fun c => c = '0')).reverse
          let s1 := if F2 = [] then A else A ++ '.' :: F2
          if s1 = ['-', '0'] then ['0'] else s1)⟩ := by
  unfold specFormatFloat stripFracZeros normalizeNegZero
  rw [hs, contains_dot]
  simp only [if_true]
  rw [takeWhile_ne_dot A F hA, dropWhile_ne_dot A F hA]
  simp only [List.tail_cons]

/-- C8: `format_float` (and with it the `ScadDisplay` rendering of
`Unit` at precision `UNIT_PRECISION = 8`) produces the fixed-precision
decimal rendering of the value, strips the trailing zeros after the
decimal point, strips a lone trailing decimal point, and normalises
`"-0"` to `"0"`; in particular `-0.0` and `0.0` format to exactly the
same string, `"0"`. -/
theorem format_float_spec_pipeline (x : FiniteF64) (n : Nat) :
    format_float x n = specFormatFloat x n
    ∧ Unit_repr_scad ⟨true, 0, 1⟩ = Unit_repr_scad ⟨false, 0, 1⟩
    ∧ Unit_repr_scad ⟨false, 0, 1⟩ = "0" := by
  refine ⟨?_, by decide, by decide⟩
  by_cases hn : n = 0
  · subst hn
    have hnodot := fixedRepr_nodot x
    unfold format_float specFormatFloat format_float_post normalizeNegZero
    rw [not_contains_dot _ hnodot]
    simp
  · obtain ⟨A, F, hs, hA, hF⟩ := fixedRepr_shape x n hn
    have hcode : format_float x n
        = ⟨(let F2 := (F.reverse.dropWhile (fun c => c = '0')).reverse
            let s1 := if F2 = [] then A else A ++ '.' :: F2
            if s1 = ['-', '0'] then ['0'] else s1)⟩ := by
      unfold format_float
      rw [hs, format_float_post_split A F hF]
    rw [hcode, specFormatFloat_split x n A F hs hA]

end Scadman
